import Mathlib

/-!
newsie: read-state cache, feed session and post renderer

A shallow embedding of the Go packages `termstyle`, `archparser` and `archnews`.

* Go `string` values are Lean `String`s.
* The package-level variables of `archnews` (`posts`, `numUnread`, `cacheMap`) and the
  contents of the cache file named by `cache` form the record `State`.
* The package-level variables of `archparser` (`text`, `isCode`) form `ParserState`.
* Results of the operating system (opening and writing the cache file) and of the
  imported libraries (`html.Tokenizer`, `gofeed`) are explicit arguments.
-/

namespace Newsie

/-! ## Package `termstyle` -/

namespace termstyle

/-- Source variable of the same role: the lead-in `"\033["` of every escape sequence. -/
def escLead : String := "\x1b["

/-- Translates readable formats to terminal escape sequences. Looking up a key that is
not in a Go map yields the zero value, the empty string. -/
def formatter (style : String) : String :=
  if style = "blue" then escLead ++ "94m"
  else if style = "bold" then escLead ++ "1m"
  else if style = "end" then escLead ++ "0m"
  else if style = "green" then escLead ++ "92m"
  else if style = "red" then escLead ++ "91m"
  else if style = "underline" then escLead ++ "4m"
  else if style = "yellow" then escLead ++ "93m"
  else ""

/-- The function `StyleText`: every style in turn is put in front of the text, then the
reset sequence is appended. -/
def StyleText (text : String) (styles : List String) : String :=
  styles.foldl (fun text style => formatter style ++ text) text ++ formatter "end"

/-- The escape codes of a list of styles, the code of the last style first. -/
def styleCodes (styles : List String) : String :=
  styles.reverse.foldr (fun style codes => formatter style ++ codes) ""

end termstyle

/-! ## SHA-1 and hexadecimal encoding (Go `crypto/sha1`, `encoding/hex`) -/

namespace sha1

/-- Rotate the 32-bit word `x` left by `n` bits. -/
def rotl (x n : Nat) : Nat :=
  ((x <<< n) % 2 ^ 32) ||| (x >>> (32 - n))

/-- Big-endian bytes of `n`, `k` of them. -/
def bigEndian : Nat → Nat → List Nat
  | 0, _ => []
  | k + 1, n => (n >>> (8 * k)) % 256 :: bigEndian k n

/-- Message padding: a `0x80` byte, zero bytes up to 56 modulo 64, the bit length. -/
def pad (msg : List Nat) : List Nat :=
  msg ++ [0x80] ++ List.replicate ((64 - (msg.length + 9) % 64) % 64) 0
    ++ bigEndian 8 (8 * msg.length)

/-- Sixteen big-endian words of a 64-byte block. -/
def blockWords : Nat → List Nat → List Nat
  | 0, _ => []
  | k + 1, bs =>
    (bs.getD 0 0 * 2 ^ 24 + bs.getD 1 0 * 2 ^ 16 + bs.getD 2 0 * 2 ^ 8 + bs.getD 3 0)
      :: blockWords k (bs.drop 4)

/-- Message schedule: `k` further words are appended to `w`. -/
def extend : Nat → List Nat → List Nat
  | 0, w => w
  | k + 1, w =>
    let i := w.length
    extend k (w ++ [rotl (w.getD (i - 3) 0 ^^^ w.getD (i - 8) 0 ^^^ w.getD (i - 14) 0
      ^^^ w.getD (i - 16) 0) 1])

/-- The five chaining words. -/
structure Digest where
  h0 : Nat
  h1 : Nat
  h2 : Nat
  h3 : Nat
  h4 : Nat

/-- One of the eighty rounds. -/
def round (w : List Nat) (d : Digest) (i : Nat) : Digest :=
  let b := d.h1
  let c := d.h2
  let x := d.h3
  let fk : Nat × Nat :=
    if i < 20 then ((b &&& c) ||| ((b ^^^ 0xFFFFFFFF) &&& x), 0x5A827999)
    else if i < 40 then (b ^^^ c ^^^ x, 0x6ED9EBA1)
    else if i < 60 then ((b &&& c) ||| (b &&& x) ||| (c &&& x), 0x8F1BBCDC)
    else (b ^^^ c ^^^ x, 0xCA62C1D6)
  { h0 := (rotl d.h0 5 + fk.1 + d.h4 + fk.2 + w.getD i 0) % 2 ^ 32
    h1 := d.h0
    h2 := rotl d.h1 30
    h3 := d.h2
    h4 := d.h3 }

/-- Compression of one 64-byte block into the chaining value. -/
def block (d : Digest) (bs : List Nat) : Digest :=
  let w := extend 64 (blockWords 16 bs)
  let r := (List.range 80).foldl (round w) d
  { h0 := (d.h0 + r.h0) % 2 ^ 32
    h1 := (d.h1 + r.h1) % 2 ^ 32
    h2 := (d.h2 + r.h2) % 2 ^ 32
    h3 := (d.h3 + r.h3) % 2 ^ 32
    h4 := (d.h4 + r.h4) % 2 ^ 32 }

/-- Compression of `n` consecutive blocks. -/
def blocks : Nat → Digest → List Nat → Digest
  | 0, d, _ => d
  | n + 1, d, bs => blocks n (block d (bs.take 64)) (bs.drop 64)

/-- The 20-byte SHA-1 digest of a byte sequence. -/
def sum (msg : List Nat) : List Nat :=
  let p := pad msg
  let d := blocks (p.length / 64)
    { h0 := 0x67452301, h1 := 0xEFCDAB89, h2 := 0x98BADCFE, h3 := 0x10325476,
      h4 := 0xC3D2E1F0 } p
  bigEndian 4 d.h0 ++ bigEndian 4 d.h1 ++ bigEndian 4 d.h2 ++ bigEndian 4 d.h3
    ++ bigEndian 4 d.h4

end sha1

namespace hex

/-- The digit table of `encoding/hex`. -/
def hextable : List Char := "0123456789abcdef".data

/-- Hexadecimal digit of a value below sixteen. -/
def digit (n : Nat) : Char := hextable.getD (n % 16) (Char.ofNat 48)

/-- The function `hex.EncodeToString` on a list of bytes. -/
def EncodeToString (bs : List Nat) : String :=
  String.mk (bs.flatMap fun b => [digit (b / 16), digit b])

end hex

/-- The bytes of a Go string (UTF-8). -/
def bytesOf (s : String) : List Nat :=
  s.data.flatMap fun c => (String.utf8EncodeChar c).map UInt8.toNat

/-! ## Package `archparser` -/

namespace archparser

open termstyle

/-- Simple struct for modeling text as code, or not. -/
structure textChunk where
  text : String
  isCode : Bool
deriving DecidableEq, Repr

/-- The token kinds of `golang.org/x/net/html`. -/
inductive TokenType
  | ErrorToken
  | TextToken
  | StartTagToken
  | EndTagToken
  | SelfClosingTagToken
  | CommentToken
  | DoctypeToken
deriving DecidableEq, Repr

/-- What `tokenizer.Next()` followed by `tokenizer.Token()` delivers: the kind (field `Type` of `html.Token`) and the
data (the tag name for a tag, the text for a text token). -/
structure Token where
  Kind : TokenType
  Data : String
deriving DecidableEq, Repr

/-- The package-level variables `text` and `isCode`. -/
structure ParserState where
  text : List textChunk
  isCode : Bool
deriving DecidableEq, Repr

/-- Called when the tokenizer encounters a start tag. -/
def handleStartTag (st : ParserState) (token : Token) : ParserState :=
  if token.Data = "code" then { st with isCode := true } else st

/-- Called when the tokenizer encounters an end tag. -/
def handleEndTag (st : ParserState) (token : Token) : ParserState :=
  if token.Data = "code" then { st with isCode := false }
  else if token.Data = "p" then { st with text := st.text ++ [⟨"\n", st.isCode⟩] }
  else st

/-- Called when the tokenizer encounters text. -/
def handleText (st : ParserState) (token : Token) : ParserState :=
  { st with text := st.text ++ [⟨token.Data, st.isCode⟩] }

/-- The loop of `parsePost` over the successive results of `tokenizer.Next()`. An
`ErrorToken` leaves the loop; the tokenizer delivers one when its input is exhausted,
which is the end of the list here. -/
def parseTokens (st : ParserState) : List Token → ParserState
  | [] => st
  | token :: rest =>
    match token.Kind with
    | .ErrorToken => st
    | .StartTagToken => parseTokens (handleStartTag st token) rest
    | .EndTagToken => parseTokens (handleEndTag st token) rest
    | .TextToken => parseTokens (handleText st token) rest
    | _ => parseTokens st rest

/-- The function `parsePost`: tokenizes the description and runs the loop. The tokenizer
of the `html` library is the argument `tokenize`. -/
def parsePost (tokenize : String → List Token) (st : ParserState) (desc : String) :
    ParserState :=
  parseTokens st (tokenize desc)

/-- A feed item (`gofeed.Item`), with the fields the program reads. -/
structure Item where
  Title : String
  Description : String
  Published : String
  Link : String
deriving DecidableEq, Repr

/-- One pass of the loop over the chunks in `MakePretty`. -/
def appendChunk (prettyPost : String) (chunk : textChunk) : String :=
  if chunk.isCode then prettyPost ++ StyleText chunk.text ["green"]
  else prettyPost ++ chunk.text

/-- The function `MakePretty`: the formatted post, and the package-level variables as the
call leaves them. -/
def MakePretty (tokenize : String → List Token) (st : ParserState) (post : Item) :
    String × ParserState :=
  let st := { st with isCode := false }
  let st := { st with text := [] }
  let st := parsePost tokenize st post.Description
  let prettyPost := ""
  let prettyPost := prettyPost ++ StyleText (post.Title ++ "\n") ["bold", "red"]
  let prettyPost := prettyPost ++ StyleText (post.Published ++ "\n\n") ["blue"]
  let prettyPost := st.text.foldl appendChunk prettyPost
  let prettyPost := prettyPost ++ StyleText ("\n" ++ post.Link) ["underline", "blue"]
  (prettyPost, st)

/-! ### The renderer as the specification words it -/

/-- Code mode after an event: a start tag named `code` sets it, an end tag named `code`
clears it, nothing else changes it. -/
def specMode (mode : Bool) (ev : Token) : Bool :=
  match ev.Kind with
  | .StartTagToken => if ev.Data = "code" then true else mode
  | .EndTagToken => if ev.Data = "code" then false else mode
  | _ => mode

/-- The runs an event emits: an end tag named `p` a newline, a text event its data, both
with the current code mode; nothing else emits. -/
def specEmit (mode : Bool) (ev : Token) : List textChunk :=
  match ev.Kind with
  | .EndTagToken => if ev.Data = "p" then [{ text := "\n", isCode := mode }] else []
  | .TextToken => [{ text := ev.Data, isCode := mode }]
  | _ => []

/-- The runs of a sequence of events, in event order. -/
def specRuns (mode : Bool) : List Token → List textChunk
  | [] => []
  | ev :: evs => specEmit mode ev ++ specRuns (specMode mode ev) evs

/-- The events the tokenizer delivers before it reports the end of its input. -/
def beforeError (evs : List Token) : List Token :=
  evs.takeWhile fun ev => decide (ev.Kind ≠ .ErrorToken)

/-- A run as it stands in the body: wrapped in the code style when marked code, as it is
otherwise. -/
def renderRun (chunk : textChunk) : String :=
  if chunk.isCode then StyleText chunk.text ["green"] else chunk.text

/-- The body: the runs rendered and concatenated in order. -/
def renderBody (runs : List textChunk) : String :=
  runs.foldr (fun chunk body => renderRun chunk ++ body) ""

/-- Removal of escape sequences from a character list: an escape character (27) and
what follows it up to and including the next `m` are dropped. The flag says whether an
escape sequence is open. -/
def stripChars : Bool → List Char → List Char
  | _, [] => []
  | false, c :: cs =>
    if c = Char.ofNat 27 then stripChars true cs else c :: stripChars false cs
  | true, c :: cs => if c = Char.ofNat 109 then stripChars false cs else stripChars true cs

/-- The text with its escape sequences removed. -/
def stripEscapes (s : String) : String :=
  String.mk (stripChars false s.data)

/-- The body without styling: the texts of the runs, concatenated in order. -/
def plainBody (runs : List textChunk) : String :=
  runs.foldr (fun chunk body => chunk.text ++ body) ""

/-- A text as whole lines: when it is not empty and its last line is not ended by a
newline, the newline is supplied. -/
def wholeLines (s : String) : String :=
  if s = "" ∨ s.data.getLast? = some (Char.ofNat 10) then s else s ++ "\n"

/-- The layout the specification gives for the output without escape sequences: the
title line, the date line, an empty line, the lines of the body, an empty line, the
link. -/
def specLayout (title published body link : String) : String :=
  title ++ "\n" ++ (published ++ "\n") ++ "\n" ++ wholeLines body ++ "\n" ++ link

/-- An item whose description is the text `abc` outside any paragraph. -/
def bareItem : Item :=
  { Title := "T", Description := "abc", Published := "P", Link := "L" }

/-- The events of the description `abc`. -/
def bareEvents : List Token :=
  [{ Kind := .TextToken, Data := "abc" }]

/-- An item whose description is `<p>Hello <code>world</code></p>`. -/
def helloItem : Item :=
  { Title := "T", Description := "<p>Hello <code>world</code></p>", Published := "P",
    Link := "L" }

/-- The events of the description `<p>Hello <code>world</code></p>`. -/
def helloEvents : List Token :=
  [{ Kind := .StartTagToken, Data := "p" }, { Kind := .TextToken, Data := "Hello " },
   { Kind := .StartTagToken, Data := "code" }, { Kind := .TextToken, Data := "world" },
   { Kind := .EndTagToken, Data := "code" }, { Kind := .EndTagToken, Data := "p" }]

end archparser

/-! ## Go library functions used by `archnews` -/

namespace strings

/-- The pieces of a character list between the occurrences of `sep`. -/
def splitChars (sep : Char) : List Char → List (List Char)
  | [] => [[]]
  | c :: cs =>
    if c = sep then [] :: splitChars sep cs
    else
      match splitChars sep cs with
      | [] => [[c]]
      | piece :: pieces => (c :: piece) :: pieces

/-- The function `strings.Split` for a separator of one character: the substrings between
the separators, one more than there are separators. -/
def Split (s : String) (sep : Char) : List String :=
  (splitChars sep s.data).map String.mk

/-- The function `strings.ToLower` on the letters `A` to `Z`; other characters are left
as they are (no character outside `A` to `Z` has `y`, `e` or `s` as its lower case). -/
def ToLower (s : String) : String :=
  String.mk (s.data.map Char.toLower)

/-- White space as `unicode.IsSpace` defines it. -/
def isSpace (c : Char) : Bool :=
  let n := c.toNat
  (9 ≤ n && n ≤ 13) || n = 32 || n = 0x85 || n = 0xA0 || n = 0x1680
    || (0x2000 ≤ n && n ≤ 0x200A) || n = 0x2028 || n = 0x2029 || n = 0x202F || n = 0x205F
    || n = 0x3000

/-- The function `strings.TrimSpace`: leading and trailing white space removed. -/
def TrimSpace (s : String) : String :=
  String.mk (((s.data.dropWhile isSpace).reverse.dropWhile isSpace).reverse)

end strings

namespace fmt

/-- The verb `%-4s` of `fmt.Sprintf`: padded with spaces on the right to width four. -/
def padRight4 (s : String) : String :=
  s ++ String.mk (List.replicate (4 - s.length) (Char.ofNat 32))

end fmt

/-! ## Package `archnews` -/

namespace archnews

open termstyle archparser

/-- A Go `error` value; `none` is `nil`. -/
abbrev error := Option String

/-- What the operating system does with one append to the cache file: all of it is
written, the file cannot be opened, or the write fails after `n` characters. -/
inductive AppendResult
  | ok
  | openError
  | writeError (n : Nat)
deriving DecidableEq, Repr

/-- The package-level variables `posts`, `numUnread` and `cacheMap`, the contents of the
file named by `cache`, and the variables of package `archparser`. -/
structure State where
  posts : List Item
  numUnread : Int
  cacheMap : String → Bool
  cacheFile : String
  parser : ParserState

/-- The assignment `m[k] = v` on a Go map. -/
def mapSet (m : String → Bool) (k : String) (v : Bool) : String → Bool :=
  fun x => if x = k then v else m x

/-- The variables as the package declares them, before `New`, with the cache file as
found on disk. -/
def initial (file : String) : State :=
  { posts := [], numUnread := 0, cacheMap := fun _ => false, cacheFile := file,
    parser := { text := [], isCode := false } }

/-- The outcome of `cacheCheck`: the contents of the cache file afterwards (created empty
when it did not exist), or `none` when a system call failed. -/
def cacheCheck (existing : Option String) (sysOk : Bool) : Option String :=
  if sysOk then some (existing.getD "") else none

/-- The function `initCache`: every line of the cache file becomes a key of `cacheMap`. -/
def initCache (readOk : Bool) (s : State) : State × error :=
  if !readOk then (s, some "read error")
  else
    let cachedPosts := strings.Split s.cacheFile (Char.ofNat 10)
    ({ s with cacheMap := cachedPosts.foldl (fun m line => mapSet m line true) s.cacheMap },
      none)

/-- The function `hashTitle`: the title hashed with SHA-1, in hexadecimal. -/
def hashTitle (title : String) : String :=
  hex.EncodeToString (sha1.sum (bytesOf title))

/-- The function `cachePost`: the hashed title and a newline are appended to the cache
file. -/
def cachePost (r : AppendResult) (s : State) (title : String) : State × error :=
  let hashedTitle := hashTitle title
  match r with
  | .openError => (s, some "open error")
  | .ok => ({ s with cacheFile := s.cacheFile ++ (hashedTitle ++ "\n") }, none)
  | .writeError n =>
    ({ s with cacheFile := s.cacheFile ++ String.mk ((hashedTitle ++ "\n").data.take n) },
      some "write error")

/-- The function `countUnread`. -/
def countUnread (s : State) : State :=
  s.posts.foldl
    (fun s post =>
      if !s.cacheMap (hashTitle post.Title) then { s with numUnread := s.numUnread + 1 }
      else s)
    s

/-- The function `isRead`. -/
def isRead (s : State) (title : String) : Bool :=
  s.cacheMap (hashTitle title)

/-- The function `New`; `none` when the process exits with status 1. -/
def New (existing : Option String) (sysOk readOk : Bool) (feed : Option (List Item)) :
    Option State :=
  match cacheCheck existing sysOk with
  | none => none
  | some file =>
    match initCache readOk (initial file) with
    | (_, some _) => none
    | (s, none) =>
      match feed with
      | none => none
      | some items => some (countUnread { s with posts := items })

/-- The variables `New` leaves when no step of it fails, the cache file holding `file` and
the feed holding `items`. -/
def session (file : String) (items : List Item) : State :=
  countUnread { (initCache true (initial file)).1 with posts := items }

/-- The entry `Ls` makes for the post at position `i` (from 0). -/
def listEntry (all : Bool) (s : State) (i : Nat) (post : Item) : String :=
  if all && !isRead s post.Title then
    StyleText (fmt.padRight4 (toString (i + 1) ++ ".")) ["bold", "red"]
      ++ StyleText post.Title ["red"]
  else
    StyleText (fmt.padRight4 (toString (i + 1) ++ ".")) ["bold"] ++ post.Title

/-- The loop of `Ls` from position `i` on. -/
def lsLoop (all : Bool) (s : State) : Nat → List Item → List String → List String
  | _, [], lsPosts => lsPosts
  | i, post :: rest, lsPosts =>
    if all || (!all && !isRead s post.Title) then
      lsLoop all s (i + 1) rest (lsPosts ++ [listEntry all s i post])
    else lsLoop all s (i + 1) rest lsPosts

/-- The function `Ls`. -/
def Ls (all : Bool) (s : State) : List String :=
  lsLoop all s 0 s.posts []

/-- The function `Read`: the returned pair and the variables afterwards. -/
def Read (tokenize : String → List Token) (r : AppendResult) (s : State) (postNum : Int) :
    (String × error) × State :=
  if postNum < 1 ∨ postNum > s.posts.length then (("", some "invalid post number"), s)
  else
    match s.posts.get? (postNum - 1).toNat with
    | none => (("", some "invalid post number"), s)
    | some post =>
      let (prettyPost, parser) := MakePretty tokenize s.parser post
      let s := { s with parser := parser }
      if !isRead s post.Title then
        let (s, err) := cachePost r s post.Title
        if err = none then ((prettyPost, none), { s with numUnread := s.numUnread - 1 })
        else ((prettyPost, none), s)
      else ((prettyPost, none), s)

/-- The loop of `Clear`; the results of the appends are taken from `rs` in turn (an
append beyond the end of `rs` succeeds). The count is `none` when the process exits. -/
def clearLoop : List Item → List AppendResult → State → Int → State × Option Int
  | [], _, s, numCleared => (s, some numCleared)
  | post :: rest, rs, s, numCleared =>
    if !isRead s post.Title then
      match cachePost (rs.headD .ok) s post.Title with
      | (s, some _) => (s, none)
      | (s, none) => clearLoop rest rs.tail s (numCleared + 1)
    else clearLoop rest rs s numCleared

/-- The function `Clear`. -/
def Clear (rs : List AppendResult) (s : State) : State × Option Int :=
  clearLoop s.posts rs s 0

/-- A call of the session. -/
inductive Call
  | read (postNum : Int) (r : AppendResult)
  | clear (rs : List AppendResult)

/-- The variables after a call, `none` when the process exited in it. -/
def call (tokenize : String → List Token) (s : State) : Call → Option State
  | .read postNum r => some (Read tokenize r s postNum).2
  | .clear rs =>
    match Clear rs s with
    | (s, some _) => some s
    | (_, none) => none

/-- The variables after a sequence of calls. -/
def calls (tokenize : String → List Token) : State → List Call → Option State
  | s, [] => some s
  | s, c :: cs =>
    match call tokenize s c with
    | none => none
    | some s => calls tokenize s cs

/-- The number of feed items whose title hash is absent from `cacheMap`, counted anew. -/
def unreadItems (s : State) : Nat :=
  (s.posts.filter fun post => !isRead s post.Title).length

/-- A feed item with a title only. -/
def titled (title : String) : Item :=
  { Title := title, Description := "", Published := "", Link := "" }

/-! ### Browsing and fetching -/

/-- What the session writes to standard output, by the statement that writes it: the
output of the command `clear` (`fmt.Print(string(out))`), a formatted post
(`fmt.Println(prettyPost)`), a question put to the user, any other message. -/
inductive Output
  | screen (out : String)
  | post (text : String)
  | ask (text : String)
  | note (text : String)
deriving DecidableEq, Repr

/-- The text of a formatted post among the outputs. -/
def Output.postText : Output → Option String
  | .post text => some text
  | _ => none

/-- The session with its terminal: the package-level variables, what was written to
standard output (in order), the results of the coming calls of `fmt.Scanln` (`some` token
stored into the variable, or `none` when the line is empty or the input is at its end and
the variable is left as it is), and the results of the coming appends to the cache
file. -/
structure World where
  vars : State
  printed : List Output
  answers : List (Option String)
  appends : List AppendResult

/-- A session in front of a terminal on which nothing was written yet. -/
def World.start (s : State) (answers : List (Option String)) (appends : List AppendResult) :
    World :=
  { vars := s, printed := [], answers := answers, appends := appends }

/-- The call `fmt.Scanln(&userChoice)` for one result of the terminal. -/
def scanln (answer : Option (Option String)) (userChoice : String) : String :=
  match answer with
  | some (some token) => token
  | _ => userChoice

/-- The function `promptBrowse`: true if the user inputs `y`, `yes`, or hits enter. -/
def promptBrowse (w : World) : Bool × World :=
  let userChoice := ""
  let w := { w with printed := w.printed ++ [Output.ask "Read them now? [Y/n] "] }
  let userChoice := scanln w.answers.head? userChoice
  let w := { w with answers := w.answers.tail }
  let userChoice := strings.TrimSpace (strings.ToLower userChoice)
  (userChoice = "y" || userChoice = "yes" || userChoice = "", w)

/-- The loop of `Browse` from position `idx` on, over the posts from that position on;
`clear idx` is the output of the command `clear` in that pass, `none` when it fails. -/
def browseLoop (tokenize : String → List Token) (clear : Nat → Option String) (all : Bool) :
    List Item → Nat → String → World → World × error
  | [], _, _, w => (w, none)
  | currPost :: rest, idx, userChoice, w =>
    if userChoice = "y" ∨ userChoice = "yes" ∨ userChoice = "" then
      match clear idx with
      | none => (w, some "clear error")
      | some out =>
        let w := { w with printed := w.printed ++ [Output.screen out] }
        if all || !isRead w.vars currPost.Title then
          let res := Read tokenize (w.appends.headD .ok) w.vars (idx + 1)
          let w := { w with
            vars := res.2
            appends := if !isRead w.vars currPost.Title then w.appends.tail else w.appends
            printed := w.printed ++ [Output.post (res.1.1 ++ "\n"),
              Output.ask (StyleText "\nContinue? [Y/n] " ["bold"])] }
          let userChoice := scanln w.answers.head? userChoice
          let w := { w with answers := w.answers.tail }
          browseLoop tokenize clear all rest (idx + 1)
            (strings.TrimSpace (strings.ToLower userChoice)) w
        else
          browseLoop tokenize clear all rest (idx + 1)
            (strings.TrimSpace (strings.ToLower userChoice)) w
    else (w, none)

/-- The function `Browse`. -/
def Browse (tokenize : String → List Token) (clear : Nat → Option String) (all : Bool)
    (w : World) : World × error :=
  if !all && w.vars.numUnread = 0 then
    ({ w with printed := w.printed ++
        [Output.note "You don't have any unread news. Use the -a option to browse all posts.\n"] },
      none)
  else browseLoop tokenize clear all w.vars.posts 0 "" w

/-- The function `Fetch`: the number of unread items and the status message. -/
def Fetch (tokenize : String → List Token) (clear : Nat → Option String) (prompt : Bool)
    (w : World) : (Int × String) × World :=
  if w.vars.numUnread = 0 then ((w.vars.numUnread, "No news is good news.\n"), w)
  else
    let msg := StyleText ("* You have " ++ toString w.vars.numUnread ++ " unread item(s).\n")
      ["yellow"]
    let rest (w : World) : (Int × String) × World :=
      let cmd := StyleText "newsie browse" ["bold", "green"]
      ((w.vars.numUnread, msg ++ ("Use " ++ cmd ++ " to view them.\n")), w)
    if prompt then
      let w := { w with printed := w.printed ++ [Output.note msg] }
      let (yes, w) := promptBrowse w
      if yes then
        let (w, _) := Browse tokenize clear false w
        ((w.vars.numUnread, ""), w)
      else rest w
    else rest w

/-! ### The session as the specification words it -/

/-- An affirmative response: empty input, or `y` or `yes` in any letter case. -/
def affirmative (answer : Option String) : Bool :=
  match answer with
  | none => true
  | some token =>
    let choice := strings.TrimSpace (strings.ToLower token)
    choice = "y" || choice = "yes" || choice = ""

/-- The passes of `Browse` that the command `clear` lets through: the items with their
positions (from 0), in feed order, up to the first pass in which `clear` fails. -/
def reached (clear : Nat → Option String) (posts : List Item) : List (Nat × Item) :=
  posts.enum.takeWhile fun ip => (clear ip.1).isSome

/-- Browsing as the specification words it, over items with their positions: an item
qualifies when all items are browsed or its hash is absent from the read-state cache; a
qualifying item is rendered and marked read, its hash entering the cache when it was
absent and the append succeeds; the next item is looked at only when the response is
affirmative (a response not given is empty input), and nothing is rendered after the
first response that is not. The result is the items rendered, in order. -/
def specRenders (all : Bool) :
    (String → Bool) → List (Nat × Item) → List (Option String) → List AppendResult →
      List (Nat × Item)
  | _, [], _, _ => []
  | cached, (i, item) :: rest, answers, rs =>
    if all || !cached (hashTitle item.Title) then
      (i, item) ::
        (if affirmative (answers.headD none) then
          specRenders all
            (if !cached (hashTitle item.Title) && decide (rs.headD .ok = .ok) then
              mapSet cached (hashTitle item.Title) true
            else cached)
            rest answers.tail
            (if !cached (hashTitle item.Title) then rs.tail else rs)
        else [])
    else specRenders all cached rest answers rs

/-- The items rendered out of a list of qualifying items, response by response: an item
is rendered, and the next one only when the response to it is affirmative; with no
response left all items are rendered. -/
def rendersFrom {α : Type} : List α → List (Option String) → List α
  | [], _ => []
  | q :: qs, [] => q :: qs
  | q :: qs, a :: answers => q :: (if affirmative a then rendersFrom qs answers else [])

/-- What `Browse` writes for an item it renders: the formatted post and the newline of
`fmt.Println`. -/
def postLine (tokenize : String → List Token) (ip : Nat × Item) : String :=
  (MakePretty tokenize { text := [], isCode := false } ip.2).1 ++ "\n"

/-- The variables after `Read` was called for each of the items in turn, with its post
number; a call that appends uses up one append result. -/
def readEach (tokenize : String → List Token) :
    State → List (Nat × Item) → List AppendResult → State
  | s, [], _ => s
  | s, (i, item) :: rest, rs =>
    readEach tokenize (Read tokenize (rs.headD .ok) s (i + 1)).2 rest
      (if !isRead s item.Title then rs.tail else rs)

/-- The titles whose hash lines make up a cache file. -/
def cacheLines (titles : List String) : String :=
  titles.foldr (fun title file => hashTitle title ++ "\n" ++ file) ""

/-- A call whose appends to the cache file all succeed. -/
def Call.succeeds : Call → Prop
  | .read _ r => r = .ok
  | .clear rs => ∀ r ∈ rs, r = .ok

end archnews

end Newsie

namespace Newsie

open termstyle archparser archnews

set_option maxRecDepth 100000

/-! ## Read-state cache -/

theorem splitChars_cons (sep c : Char) (cs : List Char) :
    strings.splitChars sep (c :: cs) =
      if c = sep then [] :: strings.splitChars sep cs
      else
        match strings.splitChars sep cs with
        | [] => [[c]]
        | piece :: pieces => (c :: piece) :: pieces := by
  rw [strings.splitChars]

theorem splitChars_line (sep : Char) (h rest : List Char) (hh : sep ∉ h) :
    strings.splitChars sep (h ++ sep :: rest) = h :: strings.splitChars sep rest := by
  induction h with
  | nil => simp [splitChars_cons]
  | cons c cs ih =>
    have hc : c ≠ sep := fun e => hh (by simp [e])
    have hcs : sep ∉ cs := fun e => hh (by simp [e])
    rw [List.cons_append, splitChars_cons, if_neg hc, ih hcs]

theorem splitChars_append_sep (sep : Char) (a b : List Char) :
    ∃ p ps, strings.splitChars sep (a ++ sep :: b) = p :: ps ++ strings.splitChars sep b := by
  induction a with
  | nil => exact ⟨[], [], by simp [splitChars_cons]⟩
  | cons c cs ih =>
    obtain ⟨p, ps, hpre⟩ := ih
    by_cases hc : c = sep
    · exact ⟨[], p :: ps, by rw [List.cons_append, splitChars_cons, if_pos hc, hpre]; rfl⟩
    · exact ⟨c :: p, ps, by rw [List.cons_append, splitChars_cons, if_neg hc, hpre]; rfl⟩

/-- A line of the file that ends the file, newline included, is among the lines `Split`
returns, when the file before it is empty or ends in a newline. -/
theorem mem_Split_append_line (c h : String) (hh : Char.ofNat 10 ∉ h.data)
    (hc : c = "" ∨ ∃ d, c = d ++ "\n") :
    h ∈ strings.Split (c ++ (h ++ "\n")) (Char.ofNat 10) := by
  have hnl : ("\n" : String).data = [Char.ofNat 10] := rfl
  have key : ∀ rest : List Char, h.data ∈ strings.splitChars (Char.ofNat 10)
      (rest ++ (h.data ++ [Char.ofNat 10])) →
      h ∈ (strings.splitChars (Char.ofNat 10) (rest ++ (h.data ++ [Char.ofNat 10]))).map
        String.mk := fun rest hm => List.mem_map.mpr ⟨h.data, hm, rfl⟩
  have hline : strings.splitChars (Char.ofNat 10) (h.data ++ [Char.ofNat 10]) = [h.data, []] := by
    rw [splitChars_line _ _ _ hh]; rfl
  unfold strings.Split
  rcases hc with rfl | ⟨d, rfl⟩
  · simp only [String.data_append, hnl]
    have := key [] (by simp [hline])
    simpa using this
  · simp only [String.data_append, hnl]
    apply key
    obtain ⟨p, ps, hp⟩ := splitChars_append_sep (Char.ofNat 10) d.data (h.data ++ [Char.ofNat 10])
    rw [List.append_assoc, List.singleton_append, hp, hline]
    simp

theorem foldl_mapSet (lines : List String) (m : String → Bool) (x : String) :
    (lines.foldl (fun m line => mapSet m line true) m) x = (m x || decide (x ∈ lines)) := by
  induction lines generalizing m with
  | nil => simp
  | cons l ls ih =>
    rw [List.foldl_cons, ih]
    by_cases hx : x = l <;> simp [mapSet, hx]

theorem digit_ne_newline (n : Nat) : hex.digit n ≠ Char.ofNat 10 := by
  have h : ∀ k : Fin 16, hex.hextable.getD k.val (Char.ofNat 48) ≠ Char.ofNat 10 := by decide
  exact h ⟨n % 16, Nat.mod_lt _ (by decide)⟩

theorem hashTitle_no_newline (t : String) : Char.ofNat 10 ∉ (hashTitle t).data := by
  unfold hashTitle hex.EncodeToString
  simp only [List.mem_flatMap, not_exists, not_and]
  intro b _ hm
  simp only [List.mem_cons, List.mem_singleton, List.not_mem_nil, or_false] at hm
  rcases hm with hm | hm
  · exact digit_ne_newline _ hm.symm
  · exact digit_ne_newline _ hm.symm

theorem cachePost_cacheMap (r : AppendResult) (s : State) (t : String) :
    (cachePost r s t).1.cacheMap = s.cacheMap := by
  cases r <;> rfl

theorem countUnread_fold_cacheMap (ps : List Item) (s : State) :
    (ps.foldl (fun s post =>
      if !s.cacheMap (hashTitle post.Title) then { s with numUnread := s.numUnread + 1 }
      else s) s).cacheMap = s.cacheMap := by
  induction ps generalizing s with
  | nil => rfl
  | cons p ps ih =>
    rw [List.foldl_cons, ih]
    split <;> rfl

theorem countUnread_cacheMap (s : State) : (countUnread s).cacheMap = s.cacheMap :=
  countUnread_fold_cacheMap s.posts s

theorem isRead_initCache (file t : String) :
    isRead (initCache true (initial file)).1 t
      = decide (hashTitle t ∈ strings.Split file (Char.ofNat 10)) := by
  simp [isRead, initCache, initial, foldl_mapSet]

theorem New_ok (file : String) (items : List Item) :
    New (some file) true true (some items) = some (session file items) := by
  rfl

/-- Claim C1, on the code: `cachePost` leaves `cacheMap` as it is, so `isRead` answers
after it what it answered before; for a title that is not in the cache, `isRead` is false
after one successful `cachePost` and after a second one. -/
theorem C1_cachePost_leaves_isRead (r : AppendResult) (s : State) (t : String) :
    isRead (cachePost r s t).1 t = isRead s t
    ∧ isRead (cachePost .ok (initial "") "Example Title").1 "Example Title" = false
    ∧ isRead (cachePost .ok (cachePost .ok (initial "") "Example Title").1
        "Example Title").1 "Example Title" = false := by
  refine ⟨?_, rfl, rfl⟩
  unfold isRead
  rw [cachePost_cacheMap]

/-- Claim C2: when the cache file is empty or ends in a newline, after a successful
`cachePost` of a title, loading the file into an empty `cacheMap` with `initCache`
succeeds and `isRead` of the title is true; so it is in the session `New` sets up from
that file, whatever the feed. -/
theorem C2_round_trip (s : State) (t : String)
    (hc : s.cacheFile = "" ∨ ∃ d, s.cacheFile = d ++ "\n") :
    (initCache true (initial (cachePost .ok s t).1.cacheFile)).2 = none
    ∧ isRead (initCache true (initial (cachePost .ok s t).1.cacheFile)).1 t = true
    ∧ ∀ items, ∃ s', New (some (cachePost .ok s t).1.cacheFile) true true (some items) = some s'
        ∧ isRead s' t = true := by
  have hfile : (cachePost .ok s t).1.cacheFile = s.cacheFile ++ (hashTitle t ++ "\n") := rfl
  have hmem := mem_Split_append_line s.cacheFile (hashTitle t) (hashTitle_no_newline t) hc
  have hread : isRead (initCache true (initial (cachePost .ok s t).1.cacheFile)).1 t = true := by
    rw [isRead_initCache, hfile]
    exact decide_eq_true hmem
  refine ⟨rfl, hread, fun items => ⟨_, New_ok _ items, ?_⟩⟩
  unfold isRead at hread ⊢
  unfold session
  rw [countUnread_cacheMap]
  exact hread

theorem C2_round_trip_witness :
    ((initial "").cacheFile = "" ∨ ∃ d, (initial "").cacheFile = d ++ "\n")
    ∧ isRead (initCache true (initial (cachePost .ok (initial "")
        "Example Title").1.cacheFile)).1 "Example Title" = true :=
  ⟨Or.inl rfl, (C2_round_trip (initial "") "Example Title" (Or.inl rfl)).2.1⟩


/-! ## Feed session: the unread counter -/

theorem hashTitle_example :
    hashTitle "Example Title" = "75d08015772ac3e9abeefd490a923c5d4e173913" := by decide

theorem Read_cacheMap (tokenize : String → List Token) (r : AppendResult) (s : State)
    (i : Int) : (Read tokenize r s i).2.cacheMap = s.cacheMap := by
  unfold Read
  split
  · rfl
  · split
    · rfl
    · dsimp only
      split
      · split
        · dsimp only; rw [cachePost_cacheMap]
        · rw [cachePost_cacheMap]
      · rfl

theorem Read_posts (tokenize : String → List Token) (r : AppendResult) (s : State)
    (i : Int) : (Read tokenize r s i).2.posts = s.posts := by
  unfold Read
  split
  · rfl
  · split
    · rfl
    · dsimp only
      split
      · split <;> cases r <;> rfl
      · rfl

theorem Read_numUnread_ok (tokenize : String → List Token) (s : State) (i : Int)
    (post : Item) (h1 : 1 ≤ i) (h2 : i ≤ s.posts.length)
    (hp : s.posts.get? (i - 1).toNat = some post) (hu : isRead s post.Title = false) :
    (Read tokenize .ok s i).2.numUnread = s.numUnread - 1 := by
  unfold Read
  rw [if_neg (by omega)]
  simp only [hp]
  have : isRead { s with parser := (MakePretty tokenize s.parser post).2 } post.Title = false := hu
  simp [this, cachePost]


theorem countUnread_fold_numUnread (m : String → Bool) (ps : List Item) (s : State)
    (hm : s.cacheMap = m) :
    (ps.foldl (fun s post =>
      if !s.cacheMap (hashTitle post.Title) then { s with numUnread := s.numUnread + 1 }
      else s) s).numUnread
      = s.numUnread + ((ps.filter fun post => !m (hashTitle post.Title)).length : Nat) := by
  induction ps generalizing s with
  | nil => simp
  | cons p ps ih =>
    rw [List.foldl_cons, ih _ (by split <;> exact hm), List.filter_cons]
    subst hm
    cases h : s.cacheMap (hashTitle p.Title) <;> simp [h]
    omega

theorem countUnread_fold_posts (ps : List Item) (s : State) :
    (ps.foldl (fun s post =>
      if !s.cacheMap (hashTitle post.Title) then { s with numUnread := s.numUnread + 1 }
      else s) s).posts = s.posts := by
  induction ps generalizing s with
  | nil => rfl
  | cons p ps ih =>
    rw [List.foldl_cons, ih]
    split <;> rfl

/-- Right after `New` the counter is the number of items whose hash is not in `cacheMap`. -/
theorem New_numUnread (file : String) (items : List Item) (s : State)
    (h : New (some file) true true (some items) = some s) :
    s.numUnread = unreadItems s := by
  rw [New_ok] at h
  injection h with h
  subst h
  unfold unreadItems isRead session
  rw [countUnread_cacheMap]
  unfold countUnread
  rw [countUnread_fold_numUnread _ _ _ rfl, countUnread_fold_posts]
  simp [initCache, initial]

theorem Read_twice_numUnread (tokenize : String → List Token) (s : State) (post : Item)
    (hlen : 1 ≤ s.posts.length) (hp : s.posts.get? 0 = some post)
    (hu : isRead s post.Title = false) :
    ∃ s2, calls tokenize s [.read 1 .ok, .read 1 .ok] = some s2
      ∧ s2.numUnread = s.numUnread - 2 := by
  refine ⟨_, rfl, ?_⟩
  have hlen' : (1 : Int) ≤ s.posts.length := by exact_mod_cast hlen
  have hu' : isRead (Read tokenize .ok s 1).2 post.Title = false := by
    unfold isRead at hu ⊢
    rw [Read_cacheMap]
    exact hu
  rw [Read_numUnread_ok tokenize _ 1 post (by decide) (by rw [Read_posts]; exact hlen')
      (by rw [Read_posts]; exact hp) hu',
    Read_numUnread_ok tokenize _ 1 post (by decide) hlen' hp hu]
  omega

/-- Claim C3, on the code: on a feed of one post that is not in the cache, `New` sets
`numUnread` to 1, and two successful calls `Read(1)` leave it at -1. -/
theorem C3_read_twice_negative (tokenize : String → List Token) :
    ∃ s0, New (some "") true true (some [titled "A"]) = some s0 ∧ s0.numUnread = 1
      ∧ ∃ s2, calls tokenize s0 [.read 1 .ok, .read 1 .ok] = some s2
        ∧ s2.numUnread = -1 := by
  have hn : (session "" [titled "A"]).numUnread = 1 := by decide
  have hu : isRead (session "" [titled "A"]) (titled "A").Title = false := by decide
  obtain ⟨s2, h2, hs2⟩ := Read_twice_numUnread tokenize (session "" [titled "A"]) (titled "A")
    (by decide) (by decide) hu
  exact ⟨_, New_ok _ _, hn, s2, h2, by rw [hs2, hn]; rfl⟩


theorem cachePost_numUnread (r : AppendResult) (s : State) (t : String) :
    (cachePost r s t).1.numUnread = s.numUnread := by
  cases r <;> rfl

theorem clearLoop_numUnread (ps : List Item) (rs : List AppendResult) (s : State) (n : Int) :
    (clearLoop ps rs s n).1.numUnread = s.numUnread := by
  induction ps generalizing rs s n with
  | nil => rfl
  | cons p ps ih =>
    unfold clearLoop
    split
    · have hc := cachePost_numUnread (rs.headD .ok) s p.Title
      split
      · next s1 e heq => rw [heq] at hc; exact hc
      · next s1 heq => rw [heq] at hc; rw [ih]; exact hc
    · exact ih _ _ _

theorem unreadItems_congr (s s1 : State) (hp : s1.posts = s.posts)
    (hm : s1.cacheMap = s.cacheMap) : unreadItems s1 = unreadItems s := by
  unfold unreadItems isRead
  rw [hp, hm]

/-- Claim C4, on the code: on a feed of one post that is not in the cache, the counter
and the number of items absent from the cache are both 1 after `New`; a successful
`Read(1)` lowers the counter to 0 while the number of items absent from `cacheMap` stays
1; `Clear` marks the one item and returns 1 while the counter stays 1, as it does in
every call of `Clear`. -/
theorem C4_counter_diverges (tokenize : String → List Token) :
    New (some "") true true (some [titled "A"]) = some (session "" [titled "A"])
    ∧ (session "" [titled "A"]).numUnread = 1
    ∧ unreadItems (session "" [titled "A"]) = 1
    ∧ (Read tokenize .ok (session "" [titled "A"]) 1).2.numUnread = 0
    ∧ unreadItems (Read tokenize .ok (session "" [titled "A"]) 1).2 = 1
    ∧ (Clear [] (session "" [titled "A"])).2 = some 1
    ∧ (Clear [] (session "" [titled "A"])).1.numUnread = 1
    ∧ ∀ rs s, (Clear rs s).1.numUnread = s.numUnread := by
  have hn : (session "" [titled "A"]).numUnread = 1 := by decide
  have hu : isRead (session "" [titled "A"]) (titled "A").Title = false := by decide
  have hi : unreadItems (session "" [titled "A"]) = 1 := by decide
  refine ⟨rfl, hn, hi, ?_, ?_, by decide, by decide, fun rs s => clearLoop_numUnread _ _ _ _⟩
  · rw [Read_numUnread_ok tokenize _ 1 (titled "A") (by decide) (by decide) (by decide) hu, hn]
    rfl
  · rw [unreadItems_congr _ _ (Read_posts _ _ _ _) (Read_cacheMap _ _ _ _), hi]


/-! ## Renderer -/

theorem parseTokens_text (evs : List Token) (st : ParserState) :
    (parseTokens st evs).text = st.text ++ specRuns st.isCode (beforeError evs) := by
  induction evs generalizing st with
  | nil => simp [parseTokens, beforeError, specRuns]
  | cons ev evs ih =>
    obtain ⟨kind, data⟩ := ev
    cases kind
    case ErrorToken => simp [parseTokens, beforeError, specRuns]
    case TextToken =>
      simp [parseTokens, beforeError, specRuns, ih, handleText, specEmit, specMode]
    case StartTagToken =>
      by_cases h : data = "code" <;>
        simp [parseTokens, beforeError, specRuns, ih, handleStartTag, specEmit, specMode, h]
    case EndTagToken =>
      by_cases h : data = "code"
      · have hp : ¬ data = "p" := by rw [h]; decide
        simp [parseTokens, beforeError, specRuns, ih, handleEndTag, specEmit, specMode, h]
      · by_cases hp : data = "p" <;>
          simp [parseTokens, beforeError, specRuns, ih, handleEndTag, specEmit, specMode, h, hp]
    all_goals simp [parseTokens, beforeError, specRuns, ih, specEmit, specMode]

/-- Claim C5: from code mode false and no runs, `parsePost` leaves in `text` exactly the
runs the rules give for the events the tokenizer delivers before the end of its input,
in event order; the events of `<p>Hello <code>world</code></p>` give
`Hello ` as prose, `world` as code and a newline as prose. -/
theorem C5_parsePost_runs (tokenize : String → List Token) (desc : String) :
    (parsePost tokenize { text := [], isCode := false } desc).text
      = specRuns false (beforeError (tokenize desc))
    ∧ (parsePost (fun _ => helloEvents) { text := [], isCode := false }
        "<p>Hello <code>world</code></p>").text
      = [{ text := "Hello ", isCode := false }, { text := "world", isCode := true },
         { text := "\n", isCode := false }] := by
  refine ⟨?_, by decide⟩
  unfold parsePost
  rw [parseTokens_text]
  rfl

/-- Claim C6: the string `MakePretty` returns for an item does not depend on the values
`text` and `isCode` hold before the call; so it is the same after rendering any other
item, and when the item is rendered twice. -/
theorem C6_MakePretty_deterministic (tokenize : String → List Token) (item other : Item)
    (st st' : ParserState) :
    (MakePretty tokenize st item).1 = (MakePretty tokenize st' item).1
    ∧ (MakePretty tokenize (MakePretty tokenize st other).2 item).1
        = (MakePretty tokenize st item).1
    ∧ (MakePretty tokenize (MakePretty tokenize st item).2 item).1
        = (MakePretty tokenize st item).1 :=
  ⟨rfl, rfl, rfl⟩

theorem foldl_appendChunk (runs : List textChunk) (acc : String) :
    runs.foldl appendChunk acc = acc ++ renderBody runs := by
  induction runs generalizing acc with
  | nil => simp [renderBody]
  | cons c cs ih =>
    rw [List.foldl_cons, ih]
    unfold appendChunk renderBody renderRun
    rw [List.foldr_cons]
    split <;> rw [String.append_assoc]

/-- Claim C7: the output of `MakePretty` is the styled title block, the styled date
block, the body and the styled link block, where the body is the concatenation, in
order, of the runs of the description, a run marked code wrapped by `StyleText` with the
style green and a prose run unchanged; the runs `Hello ` (prose), `world` (code) and a
newline (prose) give `Hello `, the wrapped `world` and the newline. -/
theorem C7_body_rendering (tokenize : String → List Token) (st : ParserState) (item : Item) :
    (MakePretty tokenize st item).1
      = StyleText (item.Title ++ "\n") ["bold", "red"]
        ++ StyleText (item.Published ++ "\n\n") ["blue"]
        ++ renderBody (parsePost tokenize { text := [], isCode := false } item.Description).text
        ++ StyleText ("\n" ++ item.Link) ["underline", "blue"]
    ∧ renderBody [{ text := "Hello ", isCode := false }, { text := "world", isCode := true },
        { text := "\n", isCode := false }]
      = "Hello " ++ StyleText "world" ["green"] ++ "\n" := by
  refine ⟨?_, by decide⟩
  unfold MakePretty
  simp only [foldl_appendChunk, String.empty_append]


theorem stripChars_plain (a b : List Char) (ha : Char.ofNat 27 ∉ a) :
    stripChars false (a ++ b) = a ++ stripChars false b := by
  induction a with
  | nil => rfl
  | cons c cs ih =>
    have hc : c ≠ Char.ofNat 27 := fun e => ha (by simp [e])
    have hcs : Char.ofNat 27 ∉ cs := fun e => ha (by simp [e])
    rw [List.cons_append, stripChars, if_neg hc, ih hcs, List.cons_append]

theorem stripChars_plain_nil (a : List Char) (ha : Char.ofNat 27 ∉ a) :
    stripChars false a = a := by
  have := stripChars_plain a [] ha
  simpa [stripChars] using this

theorem stripChars_formatter (style : String)
    (hs : style ∈ ["blue", "bold", "end", "green", "red", "underline", "yellow"])
    (b : List Char) :
    stripChars false ((formatter style).data ++ b) = stripChars false b := by
  simp only [List.mem_cons, List.mem_singleton, List.not_mem_nil, or_false] at hs
  rcases hs with rfl | rfl | rfl | rfl | rfl | rfl | rfl <;> rfl

theorem stripChars_foldl_formatter (styles : List String)
    (hs : ∀ style ∈ styles, style ∈ ["blue", "bold", "end", "green", "red", "underline",
      "yellow"]) (x : String) (rest : List Char) :
    stripChars false ((styles.foldl (fun text style => formatter style ++ text) x).data ++ rest)
      = stripChars false (x.data ++ rest) := by
  induction styles generalizing x with
  | nil => rfl
  | cons s ss ih =>
    rw [List.foldl_cons, ih (fun t ht => hs t (List.mem_cons_of_mem _ ht)), String.data_append,
      List.append_assoc, stripChars_formatter s (hs s (List.mem_cons_self _ _))]

theorem stripChars_StyleText (x : String) (styles : List String)
    (hs : ∀ style ∈ styles, style ∈ ["blue", "bold", "end", "green", "red", "underline",
      "yellow"]) (hx : Char.ofNat 27 ∉ x.data) (rest : List Char) :
    stripChars false ((StyleText x styles).data ++ rest) = x.data ++ stripChars false rest := by
  unfold StyleText
  rw [String.data_append, List.append_assoc, stripChars_foldl_formatter styles hs,
    stripChars_plain _ _ hx, stripChars_formatter "end" (by decide)]

theorem renderBody_cons (c : textChunk) (cs : List textChunk) :
    renderBody (c :: cs) = renderRun c ++ renderBody cs := rfl

theorem plainBody_cons (c : textChunk) (cs : List textChunk) :
    plainBody (c :: cs) = c.text ++ plainBody cs := rfl

theorem stripChars_renderBody (runs : List textChunk)
    (hr : ∀ chunk ∈ runs, Char.ofNat 27 ∉ chunk.text.data) (rest : List Char) :
    stripChars false ((renderBody runs).data ++ rest)
      = (plainBody runs).data ++ stripChars false rest := by
  induction runs with
  | nil => rfl
  | cons c cs ih =>
    have hc := hr c (List.mem_cons_self _ _)
    have ih' := ih (fun t ht => hr t (List.mem_cons_of_mem _ ht))
    rw [renderBody_cons, plainBody_cons, String.data_append, String.data_append,
      List.append_assoc, List.append_assoc]
    unfold renderRun
    split
    · rw [stripChars_StyleText _ _ (by decide) hc, ih']
    · rw [stripChars_plain _ _ hc, ih']

/-- Claim C8 as stated fails: for the item with title `T`, date `P`, link `L` and the
description `abc`, whose body does not end in a newline, the output without escape
sequences is `T`, `P`, an empty line, `abc` and `L` on five lines, with no empty line
between the body and the link. -/
theorem C8_blank_line_counterexample :
    stripEscapes (MakePretty (fun _ => bareEvents) { text := [], isCode := false } bareItem).1
      = "T\nP\n\nabc\nL"
    ∧ specLayout bareItem.Title bareItem.Published
        (plainBody (parsePost (fun _ => bareEvents) { text := [], isCode := false }
          bareItem.Description).text) bareItem.Link
      = "T\nP\n\nabc\n\nL"
    ∧ stripEscapes (MakePretty (fun _ => bareEvents) { text := [], isCode := false }
        bareItem).1
      ≠ specLayout bareItem.Title bareItem.Published
        (plainBody (parsePost (fun _ => bareEvents) { text := [], isCode := false }
          bareItem.Description).text) bareItem.Link := by
  decide

/-- Claim C8, amended: the output of `MakePretty` is, in this order, the title and a
newline styled bold and red, the date, a newline and an empty line styled blue, the
rendered body, and one newline followed by the link styled underlined and blue. When
title, date, link and run texts hold no escape character, the output without escape
sequences is title, newline, date, newline, an empty line, the body, one newline, the
link; it is the layout of the specification when the body is empty or ends in a
newline. -/
theorem C8_layout (tokenize : String → List Token) (st : ParserState) (item : Item) :
    (MakePretty tokenize st item).1
      = StyleText (item.Title ++ "\n") ["bold", "red"]
        ++ StyleText (item.Published ++ "\n" ++ "\n") ["blue"]
        ++ renderBody (parsePost tokenize { text := [], isCode := false } item.Description).text
        ++ StyleText ("\n" ++ item.Link) ["underline", "blue"]
    ∧ (Char.ofNat 27 ∉ item.Title.data → Char.ofNat 27 ∉ item.Published.data →
        Char.ofNat 27 ∉ item.Link.data →
        (∀ chunk ∈ (parsePost tokenize { text := [], isCode := false } item.Description).text,
          Char.ofNat 27 ∉ chunk.text.data) →
        stripEscapes (MakePretty tokenize st item).1
            = item.Title ++ "\n" ++ (item.Published ++ "\n") ++ "\n"
              ++ plainBody (parsePost tokenize { text := [], isCode := false }
                  item.Description).text
              ++ "\n" ++ item.Link
          ∧ (plainBody (parsePost tokenize { text := [], isCode := false }
                  item.Description).text = ""
              ∨ (plainBody (parsePost tokenize { text := [], isCode := false }
                  item.Description).text).data.getLast? = some (Char.ofNat 10) →
            stripEscapes (MakePretty tokenize st item).1
              = specLayout item.Title item.Published
                  (plainBody (parsePost tokenize { text := [], isCode := false }
                    item.Description).text) item.Link)) := by
  have hform : (MakePretty tokenize st item).1
      = StyleText (item.Title ++ "\n") ["bold", "red"]
        ++ StyleText (item.Published ++ "\n" ++ "\n") ["blue"]
        ++ renderBody (parsePost tokenize { text := [], isCode := false } item.Description).text
        ++ StyleText ("\n" ++ item.Link) ["underline", "blue"] := by
    unfold MakePretty
    simp only [foldl_appendChunk, String.empty_append, String.append_assoc]
    rfl
  refine ⟨hform, fun ht hp hl hr => ?_⟩
  have hnl : ("\n" : String).data = [Char.ofNat 10] := rfl
  have hesc : Char.ofNat 27 ≠ Char.ofNat 10 := by decide
  have hstrip : stripEscapes (MakePretty tokenize st item).1
      = item.Title ++ "\n" ++ (item.Published ++ "\n") ++ "\n"
        ++ plainBody (parsePost tokenize { text := [], isCode := false }
            item.Description).text
        ++ "\n" ++ item.Link := by
    have ht' : Char.ofNat 27 ∉ (item.Title ++ "\n").data := by
      simp [String.data_append, ht, hnl, hesc]
    have hp' : Char.ofNat 27 ∉ (item.Published ++ "\n" ++ "\n").data := by
      simp [String.data_append, hp, hnl, hesc]
    have hl' : Char.ofNat 27 ∉ ("\n" ++ item.Link).data := by
      simp [String.data_append, hl, hnl, hesc]
    have hlast := stripChars_StyleText ("\n" ++ item.Link) ["underline", "blue"] (by decide)
      hl' []
    rw [List.append_nil] at hlast
    rw [hform]
    unfold stripEscapes
    apply String.ext
    rw [String.data_append, String.data_append, String.data_append, List.append_assoc,
      List.append_assoc,
      stripChars_StyleText (item.Title ++ "\n") ["bold", "red"] (by decide) ht',
      stripChars_StyleText (item.Published ++ "\n" ++ "\n") ["blue"] (by decide) hp',
      stripChars_renderBody _ hr, hlast]
    simp only [String.data_append, List.append_assoc, stripChars, List.append_nil]
  refine ⟨hstrip, fun hb => ?_⟩
  rw [hstrip]
  unfold specLayout wholeLines
  rw [if_pos hb]

theorem C8_layout_witness :
    Char.ofNat 27 ∉ helloItem.Title.data ∧ Char.ofNat 27 ∉ helloItem.Published.data
    ∧ Char.ofNat 27 ∉ helloItem.Link.data
    ∧ (∀ chunk ∈ (parsePost (fun _ => helloEvents) { text := [], isCode := false }
        helloItem.Description).text, Char.ofNat 27 ∉ chunk.text.data)
    ∧ stripEscapes (MakePretty (fun _ => helloEvents) { text := [], isCode := false }
        helloItem).1
      = helloItem.Title ++ "\n" ++ (helloItem.Published ++ "\n") ++ "\n"
        ++ plainBody (parsePost (fun _ => helloEvents) { text := [], isCode := false }
            helloItem.Description).text
        ++ "\n" ++ helloItem.Link
    ∧ (plainBody (parsePost (fun _ => helloEvents) { text := [], isCode := false }
        helloItem.Description).text).data.getLast? = some (Char.ofNat 10)
    ∧ stripEscapes (MakePretty (fun _ => helloEvents) { text := [], isCode := false }
        helloItem).1
      = specLayout helloItem.Title helloItem.Published
          (plainBody (parsePost (fun _ => helloEvents) { text := [], isCode := false }
            helloItem.Description).text) helloItem.Link :=
  ⟨by decide, by decide, by decide, by decide,
    ((C8_layout (fun _ => helloEvents) { text := [], isCode := false } helloItem).2
      (by decide) (by decide) (by decide) (by decide)).1,
    by decide,
    ((C8_layout (fun _ => helloEvents) { text := [], isCode := false } helloItem).2
      (by decide) (by decide) (by decide) (by decide)).2 (Or.inr (by decide))⟩


/-! ## Feed session: listing -/

theorem lsLoop_eq (all : Bool) (s : State) (ps : List Item) (i : Nat) (acc : List String) :
    lsLoop all s i ps acc
      = acc ++ ((ps.enumFrom i).filter fun ip => all || !isRead s ip.2.Title).map
          fun ip => listEntry all s ip.1 ip.2 := by
  induction ps generalizing i acc with
  | nil => simp [lsLoop]
  | cons p ps ih =>
    unfold lsLoop
    cases all <;> cases h : isRead s p.Title <;> simp [ih, h, List.enumFrom_cons, List.filter_cons]

theorem filter_enumFrom_length (f : Item → Bool) (ps : List Item) (i : Nat) :
    ((ps.enumFrom i).filter fun ip => f ip.2).length = (ps.filter f).length := by
  induction ps generalizing i with
  | nil => rfl
  | cons p ps ih =>
    simp only [List.enumFrom_cons, List.filter_cons]
    cases f p <;> simp [ih]

/-- Claim C9: `Ls(false)` holds, in feed order, one entry for each item that is not read,
made of the item's position in the feed counted from 1, followed by `.` and padded on the
right to width 4, and of its title; `Ls(true)` holds one entry for each item, in feed
order, with the same position and title. With three items of which the second is read,
`Ls(false)` has the two entries numbered 1 and 3 and `Ls(true)` has three entries. -/
theorem C9_list_filtering (s : State) :
    Ls false s
      = ((s.posts.enum.filter fun ip => !isRead s ip.2.Title).map fun ip =>
          StyleText (fmt.padRight4 (toString (ip.1 + 1) ++ ".")) ["bold"] ++ ip.2.Title)
    ∧ (Ls false s).length = unreadItems s
    ∧ Ls true s
      = (s.posts.enum.map fun ip =>
          if isRead s ip.2.Title then
            StyleText (fmt.padRight4 (toString (ip.1 + 1) ++ ".")) ["bold"] ++ ip.2.Title
          else
            StyleText (fmt.padRight4 (toString (ip.1 + 1) ++ ".")) ["bold", "red"]
              ++ StyleText ip.2.Title ["red"])
    ∧ (Ls true s).length = s.posts.length
    ∧ Ls false (session (hashTitle "B" ++ "\n") [titled "A", titled "B", titled "C"])
      = [StyleText "1.  " ["bold"] ++ "A", StyleText "3.  " ["bold"] ++ "C"]
    ∧ (Ls true (session (hashTitle "B" ++ "\n") [titled "A", titled "B", titled "C"])).length
      = 3 := by
  have hf : Ls false s
      = ((s.posts.enum.filter fun ip => !isRead s ip.2.Title).map fun ip =>
          StyleText (fmt.padRight4 (toString (ip.1 + 1) ++ ".")) ["bold"] ++ ip.2.Title) := by
    unfold Ls
    rw [lsLoop_eq]
    simp [listEntry, List.enum]
  have ht : Ls true s
      = (s.posts.enum.map fun ip =>
          if isRead s ip.2.Title then
            StyleText (fmt.padRight4 (toString (ip.1 + 1) ++ ".")) ["bold"] ++ ip.2.Title
          else
            StyleText (fmt.padRight4 (toString (ip.1 + 1) ++ ".")) ["bold", "red"]
              ++ StyleText ip.2.Title ["red"]) := by
    unfold Ls
    rw [lsLoop_eq]
    simp only [Bool.true_or, List.filter_true, List.nil_append, List.enum, listEntry,
      Bool.true_and]
    apply List.map_congr_left
    intro ip _
    cases isRead s ip.2.Title <;> simp
  refine ⟨hf, ?_, ht, ?_, by decide, by decide⟩
  · rw [hf, List.length_map]
    exact filter_enumFrom_length (fun post => !isRead s post.Title) s.posts 0
  · rw [ht, List.length_map, List.enum_length]


theorem lsLoop_acc (all : Bool) (s : State) (ps : List Item) (i : Nat) (acc : List String) :
    lsLoop all s i ps acc = acc ++ lsLoop all s i ps [] := by
  rw [lsLoop_eq, lsLoop_eq all s ps i [], List.nil_append]

theorem lsLoop_append (all : Bool) (s : State) (a b : List Item) (i : Nat) :
    lsLoop all s i (a ++ b) []
      = lsLoop all s i a [] ++ lsLoop all s (i + a.length) b [] := by
  simp only [lsLoop_eq, List.nil_append, List.enumFrom_append, List.filter_append,
    List.map_append]

theorem lsLoop_cons (all : Bool) (s : State) (p : Item) (ps : List Item) (i : Nat)
    (acc : List String) :
    lsLoop all s i (p :: ps) acc
      = if all || (!all && !isRead s p.Title) then
          lsLoop all s (i + 1) ps (acc ++ [listEntry all s i p])
        else lsLoop all s (i + 1) ps acc := by
  rw [lsLoop]

theorem lsLoop_false_length (s : State) (ps : List Item) (i : Nat) :
    (lsLoop false s i ps []).length = (ps.filter fun post => !isRead s post.Title).length := by
  rw [lsLoop_eq, List.nil_append, List.length_map]
  simpa using filter_enumFrom_length (fun post => !isRead s post.Title) ps i

theorem lsLoop_true_length (s : State) (ps : List Item) (i : Nat) :
    (lsLoop true s i ps []).length = ps.length := by
  rw [lsLoop_eq]
  simp

theorem entries_differ (idx title : String) :
    StyleText idx ["bold"] ++ title ≠ StyleText idx ["bold", "red"] ++ StyleText title ["red"] := by
  intro h
  have hd := congrArg String.data h
  have hb : (formatter "bold").data = [Char.ofNat 27, '[', '1', 'm'] := by decide
  have hr : (formatter "red").data = [Char.ofNat 27, '[', '9', '1', 'm'] := by decide
  simp [StyleText, String.data_append, hb, hr] at hd

/-- Claim C10 as stated fails: in the session of one post `A` that is not read, the entry
of `Ls(false)` is the bold position followed by the plain title, the entry of `Ls(true)`
is the bold red position followed by the red title, and the two differ. -/
theorem C10_styling_counterexample :
    Ls false (session "" [titled "A"]) = ["\x1b[1m1.  \x1b[0mA"]
    ∧ Ls true (session "" [titled "A"]) = ["\x1b[91m\x1b[1m1.  \x1b[0m\x1b[91mA\x1b[0m"]
    ∧ Ls false (session "" [titled "A"]) ≠ Ls true (session "" [titled "A"]) := by
  decide

/-- Claim C10, amended: for an item at position `i` (from 0) that is not read, the entry
`Ls(false)` makes for it is the position in bold followed by the plain title, which is
the styling `Ls(true)` gives to a read item; its entry in `Ls(true)` is the position in
bold and red followed by the title in red; the two entries differ. -/
theorem C10_unread_styling (s : State) (i : Nat) (post : Item)
    (hp : s.posts.get? i = some post) (hu : isRead s post.Title = false) :
    (Ls false s).get? ((s.posts.take i).filter fun p => !isRead s p.Title).length
      = some (StyleText (fmt.padRight4 (toString (i + 1) ++ ".")) ["bold"] ++ post.Title)
    ∧ (Ls true s).get? i
      = some (StyleText (fmt.padRight4 (toString (i + 1) ++ ".")) ["bold", "red"]
          ++ StyleText post.Title ["red"])
    ∧ StyleText (fmt.padRight4 (toString (i + 1) ++ ".")) ["bold"] ++ post.Title
      ≠ StyleText (fmt.padRight4 (toString (i + 1) ++ ".")) ["bold", "red"]
          ++ StyleText post.Title ["red"] := by
  have hi : i < s.posts.length := by
    rcases Nat.lt_or_ge i s.posts.length with h | h
    · exact h
    · rw [List.get?_eq_none.mpr h] at hp; cases hp
  have hsplit : s.posts = s.posts.take i ++ post :: s.posts.drop (i + 1) := by
    have h1 := (List.take_append_drop i s.posts).symm
    have h2 : s.posts.drop i = post :: s.posts.drop (i + 1) := by
      rw [List.drop_eq_getElem_cons hi]
      congr 1
      rw [List.get?_eq_getElem?, List.getElem?_eq_getElem hi] at hp
      exact Option.some.inj hp
    rw [h2] at h1
    exact h1
  have hlen : (s.posts.take i).length = i := by
    rw [List.length_take]; omega
  have hloop : ∀ all : Bool, Ls all s
      = lsLoop all s 0 (s.posts.take i) []
        ++ listEntry all s i post :: lsLoop all s (i + 1) (s.posts.drop (i + 1)) [] := by
    intro all
    unfold Ls
    conv_lhs => rw [hsplit]
    rw [lsLoop_append, hlen, Nat.zero_add]
    congr 1
    rw [lsLoop_cons, hu, if_pos (by cases all <;> rfl), lsLoop_acc]
    rfl
  refine ⟨?_, ?_, entries_differ _ _⟩
  · rw [hloop false, ← lsLoop_false_length s _ 0, List.get?_eq_getElem?,
      List.getElem?_append_right (Nat.le_refl _)]
    simp [listEntry]
  · rw [hloop true]
    have hl := lsLoop_true_length s (s.posts.take i) 0
    rw [hlen] at hl
    rw [List.get?_eq_getElem?, List.getElem?_append_right (by omega), hl]
    simp [listEntry, hu]

theorem C10_unread_styling_witness :
    (session "" [titled "A"]).posts.get? 0 = some (titled "A")
    ∧ isRead (session "" [titled "A"]) (titled "A").Title = false
    ∧ (Ls false (session "" [titled "A"])).get?
        (((session "" [titled "A"]).posts.take 0).filter
          fun p => !isRead (session "" [titled "A"]) p.Title).length
      = some (StyleText (fmt.padRight4 (toString (0 + 1) ++ ".")) ["bold"]
          ++ (titled "A").Title) :=
  ⟨by decide, by decide,
    (C10_unread_styling (session "" [titled "A"]) 0 (titled "A") (by decide) (by decide)).1⟩


/-! ## Feed session: reading one post -/

theorem Read_out_of_range (tokenize : String → List Token) (r : AppendResult) (s : State)
    (i : Int) (h : i < 1 ∨ i > s.posts.length) :
    Read tokenize r s i = (("", some "invalid post number"), s) := by
  unfold Read
  rw [if_pos h]

theorem get?_in_range (s : State) (i : Int) (h1 : 1 ≤ i) (h2 : i ≤ s.posts.length) :
    ∃ post, s.posts.get? (i - 1).toNat = some post := by
  have hlt : (i - 1).toNat < s.posts.length := by omega
  exact ⟨s.posts.get ⟨_, hlt⟩, List.get?_eq_get hlt⟩

theorem Read_result (tokenize : String → List Token) (r : AppendResult) (s : State)
    (i : Int) (post : Item) (h1 : 1 ≤ i) (h2 : i ≤ s.posts.length)
    (hp : s.posts.get? (i - 1).toNat = some post) :
    (Read tokenize r s i).1 = ((MakePretty tokenize s.parser post).1, none) := by
  unfold Read
  rw [if_neg (by omega)]
  simp only [hp]
  split
  · split <;> rfl
  · rfl

/-- Claim C11: `Read(i)` returns an error exactly when `i < 1` or `i > len(posts)`; for
an index in range it returns a nil error and `MakePretty` of the post at position `i`.
With three posts, `Read(0)` and `Read(4)` fail and `Read(1)`, `Read(2)`, `Read(3)`
succeed; with no post every index fails. -/
theorem C11_index_bounds (tokenize : String → List Token) (r : AppendResult) (s : State)
    (i : Int) :
    ((Read tokenize r s i).1.2 ≠ none ↔ (i < 1 ∨ i > s.posts.length))
    ∧ (((i < 1 ∨ i > s.posts.length)
          ∧ (Read tokenize r s i).1 = ("", some "invalid post number"))
        ∨ ((1 ≤ i ∧ i ≤ s.posts.length)
          ∧ ∃ post, s.posts.get? (i - 1).toNat = some post
            ∧ (Read tokenize r s i).1 = ((MakePretty tokenize s.parser post).1, none)))
    ∧ (Read tokenize r (session "" [titled "A", titled "B", titled "C"]) 0).1.2 ≠ none
    ∧ (Read tokenize r (session "" [titled "A", titled "B", titled "C"]) 4).1.2 ≠ none
    ∧ (Read tokenize r (session "" [titled "A", titled "B", titled "C"]) 1).1.2 = none
    ∧ (Read tokenize r (session "" [titled "A", titled "B", titled "C"]) 2).1.2 = none
    ∧ (Read tokenize r (session "" [titled "A", titled "B", titled "C"]) 3).1.2 = none
    ∧ (Read tokenize r (session "" []) i).1.2 ≠ none := by
  have key : ∀ (s : State) (i : Int),
      ((i < 1 ∨ i > s.posts.length)
          ∧ (Read tokenize r s i).1 = ("", some "invalid post number"))
        ∨ ((1 ≤ i ∧ i ≤ s.posts.length)
          ∧ ∃ post, s.posts.get? (i - 1).toNat = some post
            ∧ (Read tokenize r s i).1 = ((MakePretty tokenize s.parser post).1, none)) := by
    intro s i
    by_cases h : i < 1 ∨ i > s.posts.length
    · exact Or.inl ⟨h, by rw [Read_out_of_range _ _ _ _ h]⟩
    · have h1 : 1 ≤ i := by omega
      have h2 : i ≤ s.posts.length := by omega
      obtain ⟨post, hp⟩ := get?_in_range s i h1 h2
      exact Or.inr ⟨⟨h1, h2⟩, post, hp, Read_result _ _ _ _ _ h1 h2 hp⟩
  have iff : ∀ (s : State) (i : Int),
      (Read tokenize r s i).1.2 ≠ none ↔ (i < 1 ∨ i > s.posts.length) := by
    intro s i
    rcases key s i with ⟨h, he⟩ | ⟨h, post, _, he⟩
    · rw [he]; simp [h]
    · rw [he]
      constructor
      · intro hn; exact absurd rfl hn
      · intro hr; omega
  have h3 : (session "" [titled "A", titled "B", titled "C"]).posts.length = 3 := by decide
  have h0 : (session "" []).posts.length = 0 := by decide
  have ok : ∀ j : Int, 1 ≤ j → j ≤ 3 →
      (Read tokenize r (session "" [titled "A", titled "B", titled "C"]) j).1.2 = none := by
    intro j hj1 hj3
    by_contra hn
    have := (iff _ j).mp hn
    rw [h3] at this
    omega
  refine ⟨iff s i, key s i, (iff _ 0).mpr (Or.inl (by decide)),
    (iff _ 4).mpr (Or.inr (by rw [h3]; decide)), ok 1 (by decide) (by decide),
    ok 2 (by decide) (by decide), ok 3 (by decide) (by decide), (iff _ i).mpr ?_⟩
  rw [h0]
  omega

theorem cachePost_extends (r : AppendResult) (s : State) (t : String) :
    ∃ d, (cachePost r s t).1.cacheFile = s.cacheFile ++ d := by
  cases r
  · exact ⟨hashTitle t ++ "\n", rfl⟩
  · exact ⟨"", by simp [cachePost]⟩
  · exact ⟨_, rfl⟩

theorem cachePost_posts (r : AppendResult) (s : State) (t : String) :
    (cachePost r s t).1.posts = s.posts := by
  cases r <;> rfl

theorem Read_unread (tokenize : String → List Token) (r : AppendResult) (s : State)
    (i : Int) (post : Item) (h1 : 1 ≤ i) (h2 : i ≤ s.posts.length)
    (hp : s.posts.get? (i - 1).toNat = some post) (hu : isRead s post.Title = false) :
    (Read tokenize r s i).2.cacheFile
        = (cachePost r s post.Title).1.cacheFile
    ∧ (Read tokenize r s i).2.numUnread
        = if r = .ok then s.numUnread - 1 else s.numUnread := by
  unfold Read
  rw [if_neg (by omega)]
  simp only [hp]
  have : isRead { s with parser := (MakePretty tokenize s.parser post).2 } post.Title = false := hu
  cases r <;> simp [this, cachePost]

theorem Read_already_read (tokenize : String → List Token) (r : AppendResult) (s : State)
    (i : Int) (post : Item) (h1 : 1 ≤ i) (h2 : i ≤ s.posts.length)
    (hp : s.posts.get? (i - 1).toNat = some post) (hu : isRead s post.Title = true) :
    (Read tokenize r s i).2.cacheFile = s.cacheFile
    ∧ (Read tokenize r s i).2.numUnread = s.numUnread := by
  unfold Read
  rw [if_neg (by omega)]
  simp only [hp]
  have : isRead { s with parser := (MakePretty tokenize s.parser post).2 } post.Title = true := hu
  simp [this]

/-- Claim C12 as stated fails: on the session of one unread post `A` with an empty cache
file, a `Read(1)` whose append fails after five characters were written returns the
rendering with a nil error and leaves `numUnread` at 1, and the cache file, empty before,
holds the five characters `6dcd4` afterwards. -/
theorem C12_failed_append_counterexample :
    (cachePost (.writeError 5) (session "" [titled "A"]) "A").2 ≠ none
    ∧ (Read (fun _ => []) (.writeError 5) (session "" [titled "A"]) 1).1.2 = none
    ∧ (Read (fun _ => []) (.writeError 5) (session "" [titled "A"]) 1).2.numUnread = 1
    ∧ (session "" [titled "A"]).cacheFile = ""
    ∧ (Read (fun _ => []) (.writeError 5) (session "" [titled "A"]) 1).2.cacheFile = "6dcd4"
    ∧ (Read (fun _ => []) (.writeError 5) (session "" [titled "A"]) 1).2.cacheFile
        ≠ (session "" [titled "A"]).cacheFile := by
  decide

/-- Claim C12, amended: for an index in range, `Read` returns `MakePretty` of the post
with a nil error whatever the append does; `numUnread` drops by one when the post is
unread and the append succeeds and is unchanged when the post is already read or the
append fails. A failed append leaves `cacheMap` unchanged, so that `isRead` of the post
keeps its value; it leaves the cache file unchanged when the file cannot be opened, and
when the write fails after `n` characters the cache file is its prior contents followed
by the first `n` characters of the hash line. The cache file is unchanged as well when
the post is already read. -/
theorem C12_read_effect (tokenize : String → List Token) (r : AppendResult) (s : State)
    (i : Int) (post : Item) (n : Nat) (h1 : 1 ≤ i) (h2 : i ≤ s.posts.length)
    (hp : s.posts.get? (i - 1).toNat = some post) :
    (Read tokenize r s i).1 = ((MakePretty tokenize s.parser post).1, none)
    ∧ (Read tokenize r s i).2.numUnread
        = (if isRead s post.Title = false ∧ r = .ok then s.numUnread - 1 else s.numUnread)
    ∧ (r ≠ .ok →
        (Read tokenize r s i).2.cacheMap = s.cacheMap
        ∧ isRead (Read tokenize r s i).2 post.Title = isRead s post.Title)
    ∧ (r = .openError → (Read tokenize r s i).2.cacheFile = s.cacheFile)
    ∧ (r = .writeError n → isRead s post.Title = false →
        (Read tokenize r s i).2.cacheFile
          = s.cacheFile ++ String.mk ((hashTitle post.Title ++ "\n").data.take n))
    ∧ (isRead s post.Title = true → (Read tokenize r s i).2.cacheFile = s.cacheFile) := by
  refine ⟨Read_result _ _ _ _ _ h1 h2 hp, ?_,
    fun _ => ⟨Read_cacheMap _ _ _ _, by unfold isRead; rw [Read_cacheMap]⟩, ?_, ?_,
    fun hu => (Read_already_read tokenize r s i post h1 h2 hp hu).1⟩
  · cases hu : isRead s post.Title
    · rw [(Read_unread tokenize r s i post h1 h2 hp hu).2]
      by_cases hr : r = .ok <;> simp [hr]
    · rw [(Read_already_read tokenize r s i post h1 h2 hp hu).2]
      simp
  · intro hr
    subst hr
    cases hu : isRead s post.Title
    · rw [(Read_unread tokenize .openError s i post h1 h2 hp hu).1]
      rfl
    · exact (Read_already_read tokenize .openError s i post h1 h2 hp hu).1
  · intro hr hu
    subst hr
    rw [(Read_unread tokenize (.writeError n) s i post h1 h2 hp hu).1]
    rfl

theorem C12_read_effect_witness :
    (1 : Int) ≤ 1 ∧ (1 : Int) ≤ (session "" [titled "A"]).posts.length
    ∧ (session "" [titled "A"]).posts.get? ((1 : Int) - 1).toNat = some (titled "A")
    ∧ AppendResult.writeError 5 ≠ AppendResult.ok
    ∧ isRead (session "" [titled "A"]) (titled "A").Title = false
    ∧ (Read (fun _ => []) (.writeError 5) (session "" [titled "A"]) 1).2.numUnread
        = (if isRead (session "" [titled "A"]) (titled "A").Title = false
              ∧ AppendResult.writeError 5 = AppendResult.ok
            then (session "" [titled "A"]).numUnread - 1
            else (session "" [titled "A"]).numUnread)
    ∧ isRead (Read (fun _ => []) (.writeError 5) (session "" [titled "A"]) 1).2
        (titled "A").Title = isRead (session "" [titled "A"]) (titled "A").Title
    ∧ (Read (fun _ => []) (.writeError 5) (session "" [titled "A"]) 1).2.cacheFile
        = (session "" [titled "A"]).cacheFile
          ++ String.mk ((hashTitle (titled "A").Title ++ "\n").data.take 5) :=
  ⟨by decide, by decide, by decide, by decide, by decide,
    (C12_read_effect (fun _ => []) (.writeError 5) (session "" [titled "A"]) 1 (titled "A") 5
      (by decide) (by decide) (by decide)).2.1,
    ((C12_read_effect (fun _ => []) (.writeError 5) (session "" [titled "A"]) 1 (titled "A") 5
      (by decide) (by decide) (by decide)).2.2.1 (by decide)).2,
    (C12_read_effect (fun _ => []) (.writeError 5) (session "" [titled "A"]) 1 (titled "A") 5
      (by decide) (by decide) (by decide)).2.2.2.2.1 rfl (by decide)⟩

/-! ## Feed session: clearing -/

theorem clearLoop_count (ps : List Item) (rs : List AppendResult) (s : State) (n : Int)
    (hrs : ∀ r ∈ rs, r = .ok) :
    (clearLoop ps rs s n).2
      = some (n + ((ps.filter fun post => !isRead s post.Title).length : Nat))
    ∧ (clearLoop ps rs s n).1.cacheMap = s.cacheMap := by
  induction ps generalizing rs s n with
  | nil => simp [clearLoop]
  | cons p ps ih =>
    have hhead : rs.headD .ok = .ok := by
      cases rs with
      | nil => rfl
      | cons r rs => exact hrs r (List.mem_cons_self _ _)
    have htail : ∀ r ∈ rs.tail, r = .ok := fun r hr => hrs r (List.mem_of_mem_tail hr)
    unfold clearLoop
    cases hu : isRead s p.Title
    · have hstep := ih rs.tail (cachePost .ok s p.Title).1 (n + 1) htail
      have hmap : ∀ t, isRead (cachePost .ok s p.Title).1 t = isRead s t := by
        intro t; unfold isRead; rw [cachePost_cacheMap]
      simp only [hmap, cachePost_cacheMap] at hstep
      simp only [Bool.not_false, if_true, hhead, List.filter_cons, hu]
      refine ⟨?_, hstep.2⟩
      rw [show (cachePost .ok s p.Title) = ((cachePost .ok s p.Title).1, none) from rfl]
      simp only [hstep.1, List.length_cons, Nat.cast_add, Nat.cast_one]
      congr 1
      omega
    · have hstep := ih rs s n hrs
      simp only [Bool.not_true, Bool.false_eq_true, if_false, List.filter_cons, hu]
      exact hstep

/-- When every append succeeds, `Clear` returns the number of items whose hash is not in
`cacheMap` and leaves `cacheMap` as it is. -/
theorem Clear_count (rs : List AppendResult) (s : State) (hrs : ∀ r ∈ rs, r = .ok) :
    (Clear rs s).2 = some (unreadItems s : Int) ∧ (Clear rs s).1.cacheMap = s.cacheMap := by
  have h := clearLoop_count s.posts rs s 0 hrs
  unfold Clear unreadItems
  rw [h.1, h.2]
  simp

/-- Claim C13, on the code: with three posts `A`, `B`, `C` of which `B` is in the cache,
two are unread and `Clear`, every append succeeding, returns 2 and appends the hashes of
`A` and `C` to the cache file; afterwards `isRead` is still false for `A` and for `C`,
since `cacheMap` is left as it is, and true for all three titles only in a session set
up anew from the cache file. -/
theorem C13_clear_leaves_isRead :
    unreadItems (session (hashTitle "B" ++ "\n") [titled "A", titled "B", titled "C"]) = 2
    ∧ (Clear [] (session (hashTitle "B" ++ "\n") [titled "A", titled "B", titled "C"])).2
        = some 2
    ∧ (Clear [] (session (hashTitle "B" ++ "\n") [titled "A", titled "B", titled "C"])).1.cacheFile
        = hashTitle "B" ++ "\n" ++ (hashTitle "A" ++ "\n") ++ (hashTitle "C" ++ "\n")
    ∧ isRead (Clear [] (session (hashTitle "B" ++ "\n")
        [titled "A", titled "B", titled "C"])).1 "A" = false
    ∧ isRead (Clear [] (session (hashTitle "B" ++ "\n")
        [titled "A", titled "B", titled "C"])).1 "B" = true
    ∧ isRead (Clear [] (session (hashTitle "B" ++ "\n")
        [titled "A", titled "B", titled "C"])).1 "C" = false
    ∧ isRead (session (Clear [] (session (hashTitle "B" ++ "\n")
        [titled "A", titled "B", titled "C"])).1.cacheFile
        [titled "A", titled "B", titled "C"]) "A" = true
    ∧ isRead (session (Clear [] (session (hashTitle "B" ++ "\n")
        [titled "A", titled "B", titled "C"])).1.cacheFile
        [titled "A", titled "B", titled "C"]) "C" = true := by
  decide

/-! ## Styling -/

theorem StyleText_fold (styles : List String) (text : String) :
    styles.foldl (fun text style => formatter style ++ text) text
      = styleCodes styles ++ text := by
  induction styles generalizing text with
  | nil => simp [styleCodes]
  | cons s ss ih =>
    rw [List.foldl_cons, ih]
    unfold styleCodes
    rw [List.reverse_cons, List.foldr_append, List.foldr_cons, List.foldr_nil,
      String.append_empty]
    generalize ss.reverse = l
    induction l with
    | nil => simp
    | cons x xs ihx => rw [List.foldr_cons, List.foldr_cons, String.append_assoc, ihx,
        String.append_assoc]

theorem styleCodes_concat (styles : List String) (last : String) :
    styleCodes (styles ++ [last]) = formatter last ++ styleCodes styles := by
  unfold styleCodes
  rw [List.reverse_append, List.reverse_singleton, List.singleton_append, List.foldr_cons]

/-- Claim C19: `StyleText(text, styles)` is the escape codes of the styles, the code of
the last style first, followed by the text unchanged, followed by the reset sequence
`ESC[0m`; a style name that is not in the table contributes the empty string; with no
style the result is the text followed by the reset sequence. -/
theorem C19_StyleText_wrapping (text : String) (styles : List String) (style : String) :
    StyleText text styles = styleCodes styles ++ text ++ "\x1b[0m"
    ∧ styleCodes (styles ++ [style]) = formatter style ++ styleCodes styles
    ∧ styleCodes [] = ""
    ∧ (style ∈ ["blue", "bold", "end", "green", "red", "underline", "yellow"]
        ∨ formatter style = "")
    ∧ StyleText text [] = text ++ "\x1b[0m"
    ∧ StyleText "x" ["bold", "red"] = "\x1b[91m" ++ "\x1b[1m" ++ "x" ++ "\x1b[0m"
    ∧ StyleText "x" ["nope", "red"] = "\x1b[91m" ++ "x" ++ "\x1b[0m" := by
  refine ⟨?_, styleCodes_concat _ _, rfl, ?_, rfl, by decide, by decide⟩
  · unfold StyleText
    rw [StyleText_fold]
    rfl
  · by_cases h : style ∈ ["blue", "bold", "end", "green", "red", "underline", "yellow"]
    · exact Or.inl h
    · right
      simp only [List.mem_cons, List.mem_singleton, List.not_mem_nil, or_false, not_or] at h
      obtain ⟨h1, h2, h3, h4, h5, h6, h7⟩ := h
      simp [formatter, h1, h2, h3, h4, h5, h6, h7]

/-! ## Loading the cache -/

theorem splitChars_eq_splitOn (sep : Char) (l : List Char) :
    strings.splitChars sep l = l.splitOn sep := by
  induction l with
  | nil => rfl
  | cons c cs ih =>
    rw [splitChars_cons, ih]
    unfold List.splitOn
    rw [List.splitOnP_cons]
    by_cases hc : c = sep
    · simp [hc]
    · have hne := List.splitOnP_ne_nil (· == sep) cs
      simp only [hc, if_false, beq_iff_eq]
      cases h : List.splitOnP (· == sep) cs with
      | nil => exact absurd h hne
      | cons p ps => simp [List.modifyHead]

theorem hashTitle_length (t : String) : (hashTitle t).length = 40 := by
  have hb : ∀ k n, (sha1.bigEndian k n).length = k := by
    intro k n
    induction k with
    | zero => rfl
    | succ k ih => simp [sha1.bigEndian, ih]
  have hs : ∀ msg, (sha1.sum msg).length = 20 := by
    intro msg
    simp [sha1.sum, hb]
  have he : ∀ bs : List Nat, (hex.EncodeToString bs).length = 2 * bs.length := by
    intro bs
    unfold hex.EncodeToString
    rw [String.length]
    induction bs with
    | nil => rfl
    | cons b bs ih => simp only [List.flatMap_cons, List.length_append, ih]; simp; omega
  unfold hashTitle
  rw [he, hs]

theorem hashTitle_ne_empty (t : String) : hashTitle t ≠ "" := by
  intro h
  have := hashTitle_length t
  rw [h] at this
  exact absurd this (by decide)

theorem empty_mem_Split (d : String) :
    "" ∈ strings.Split "" (Char.ofNat 10) ∧ "" ∈ strings.Split (d ++ "\n") (Char.ofNat 10) := by
  refine ⟨by decide, ?_⟩
  unfold strings.Split
  have hnl : ("\n" : String).data = [Char.ofNat 10] := rfl
  rw [String.data_append, hnl]
  obtain ⟨p, ps, hp⟩ := splitChars_append_sep (Char.ofNat 10) d.data []
  rw [hp]
  exact List.mem_map.mpr ⟨[], by simp [strings.splitChars], rfl⟩

/-- Claim C18: loading a cache file into an empty `cacheMap` succeeds and makes exactly
the pieces of the file between its newlines the keys of the map; the empty string is one
of them when the file is empty or ends in a newline; `isRead` of a title is true after
the load exactly when the hash of the title is one of the non-empty lines. -/
theorem C18_load_contract (c d t x : String) :
    (initCache true (initial c)).2 = none
    ∧ ((initCache true (initial c)).1.cacheMap x = true
        ↔ x ∈ (c.data.splitOn (Char.ofNat 10)).map String.mk)
    ∧ strings.Split c (Char.ofNat 10) = (c.data.splitOn (Char.ofNat 10)).map String.mk
    ∧ (initCache true (initial "")).1.cacheMap "" = true
    ∧ (initCache true (initial (d ++ "\n"))).1.cacheMap "" = true
    ∧ (isRead (initCache true (initial c)).1 t = true
        ↔ hashTitle t ∈ (strings.Split c (Char.ofNat 10)).filter fun line => line ≠ "") := by
  have hsplit : strings.Split c (Char.ofNat 10)
      = (c.data.splitOn (Char.ofNat 10)).map String.mk := by
    unfold strings.Split
    rw [splitChars_eq_splitOn]
  have hmap : ∀ (f y : String), (initCache true (initial f)).1.cacheMap y
      = decide (y ∈ strings.Split f (Char.ofNat 10)) := by
    intro f y
    simp [initCache, initial, foldl_mapSet]
  refine ⟨rfl, ?_, hsplit, ?_, ?_, ?_⟩
  · rw [hmap, ← hsplit]; simp
  · rw [hmap]; exact decide_eq_true (empty_mem_Split "").1
  · rw [hmap]; exact decide_eq_true (empty_mem_Split d).2
  · rw [isRead_initCache]
    simp [List.mem_filter, hashTitle_ne_empty]

/-! ## The cache file -/

theorem cacheLines_concat (titles : List String) (t : String) :
    cacheLines (titles ++ [t]) = cacheLines titles ++ (hashTitle t ++ "\n") := by
  induction titles with
  | nil => simp [cacheLines]
  | cons x xs ih =>
    unfold cacheLines at ih ⊢
    rw [List.cons_append, List.foldr_cons, List.foldr_cons, ih]
    simp only [String.append_assoc]

theorem Read_cacheFile (tokenize : String → List Token) (r : AppendResult) (s : State)
    (i : Int) :
    (Read tokenize r s i).2.cacheFile = s.cacheFile
    ∨ ∃ t, (Read tokenize r s i).2.cacheFile = (cachePost r s t).1.cacheFile := by
  by_cases h : i < 1 ∨ i > s.posts.length
  · left; rw [Read_out_of_range _ _ _ _ h]
  · have h1 : 1 ≤ i := by omega
    have h2 : i ≤ s.posts.length := by omega
    obtain ⟨post, hp⟩ := get?_in_range s i h1 h2
    cases hu : isRead s post.Title
    · exact Or.inr ⟨post.Title, (Read_unread tokenize r s i post h1 h2 hp hu).1⟩
    · exact Or.inl (Read_already_read tokenize r s i post h1 h2 hp hu).1

theorem Read_extends (tokenize : String → List Token) (r : AppendResult) (s : State)
    (i : Int) : ∃ d, (Read tokenize r s i).2.cacheFile = s.cacheFile ++ d := by
  rcases Read_cacheFile tokenize r s i with h | ⟨t, h⟩
  · exact ⟨"", by rw [h]; simp⟩
  · rw [h]; exact cachePost_extends r s t

theorem clearLoop_extends (ps : List Item) (rs : List AppendResult) (s : State) (n : Int) :
    ∃ d, (clearLoop ps rs s n).1.cacheFile = s.cacheFile ++ d := by
  induction ps generalizing rs s n with
  | nil => exact ⟨"", by simp [clearLoop]⟩
  | cons p ps ih =>
    unfold clearLoop
    split
    · obtain ⟨d, hd⟩ := cachePost_extends (rs.headD .ok) s p.Title
      split
      · next s1 e heq => rw [heq] at hd; exact ⟨d, hd⟩
      · next s1 heq =>
        rw [heq] at hd
        obtain ⟨d2, hd2⟩ := ih rs.tail s1 (n + 1)
        exact ⟨d ++ d2, by rw [hd2, hd, String.append_assoc]⟩
    · exact ih _ _ _

theorem clearLoop_lines (ps : List Item) (rs : List AppendResult) (s : State) (n : Int)
    (hrs : ∀ r ∈ rs, r = .ok) (hs : ∃ titles, s.cacheFile = cacheLines titles) :
    ∃ titles, (clearLoop ps rs s n).1.cacheFile = cacheLines titles := by
  induction ps generalizing rs s n with
  | nil => exact hs
  | cons p ps ih =>
    have hhead : rs.headD .ok = .ok := by
      cases rs with
      | nil => rfl
      | cons r rs => exact hrs r (List.mem_cons_self _ _)
    have htail : ∀ r ∈ rs.tail, r = .ok := fun r hr => hrs r (List.mem_of_mem_tail hr)
    unfold clearLoop
    split
    · rw [hhead]
      obtain ⟨titles, ht⟩ := hs
      exact ih rs.tail (cachePost .ok s p.Title).1 (n + 1) htail
        ⟨titles ++ [p.Title], by rw [cacheLines_concat, ← ht]; rfl⟩
    · exact ih _ _ _ hrs hs

theorem call_lines (tokenize : String → List Token) (s s1 : State) (c : Call)
    (hc : c.succeeds) (h : call tokenize s c = some s1)
    (hs : ∃ titles, s.cacheFile = cacheLines titles) :
    ∃ titles, s1.cacheFile = cacheLines titles := by
  cases c with
  | read i r =>
    have hr : r = .ok := hc
    subst hr
    simp only [call, Option.some.injEq] at h
    subst h
    rcases Read_cacheFile tokenize .ok s i with h | ⟨t, h⟩
    · rw [h]; exact hs
    · obtain ⟨titles, ht⟩ := hs
      exact ⟨titles ++ [t], by rw [h, cacheLines_concat, ← ht]; rfl⟩
  | clear rs =>
    have hl := clearLoop_lines s.posts rs s 0 hc hs
    simp only [call, Clear] at h
    split at h
    · next s2 n heq =>
      rw [heq] at hl
      injection h with h
      subst h
      exact hl
    · cases h

theorem calls_lines (tokenize : String → List Token) (cs : List Call) (s s1 : State)
    (hcs : ∀ c ∈ cs, c.succeeds) (h : calls tokenize s cs = some s1)
    (hs : ∃ titles, s.cacheFile = cacheLines titles) :
    ∃ titles, s1.cacheFile = cacheLines titles := by
  induction cs generalizing s with
  | nil =>
    simp only [calls, Option.some.injEq] at h
    subst h
    exact hs
  | cons c cs ih =>
    unfold calls at h
    split at h
    · cases h
    · next s2 heq =>
      exact ih s2 (fun c hc => hcs c (List.mem_cons_of_mem _ hc)) h
        (call_lines tokenize s s2 c (hcs c (List.mem_cons_self _ _)) heq hs)

theorem countUnread_fold_cacheFile (ps : List Item) (s : State) :
    (ps.foldl (fun s post =>
      if !s.cacheMap (hashTitle post.Title) then { s with numUnread := s.numUnread + 1 }
      else s) s).cacheFile = s.cacheFile := by
  induction ps generalizing s with
  | nil => rfl
  | cons p ps ih =>
    rw [List.foldl_cons, ih]
    split <;> rfl

theorem session_cacheFile (file : String) (items : List Item) :
    (session file items).cacheFile = file := by
  unfold session countUnread
  rw [countUnread_fold_cacheFile]
  rfl

theorem digit_mem_hextable (n : Nat) : hex.digit n ∈ "0123456789abcdef".data := by
  have h : ∀ k : Fin 16, hex.hextable.getD k.val (Char.ofNat 48) ∈ "0123456789abcdef".data := by
    decide
  exact h ⟨n % 16, Nat.mod_lt _ (by decide)⟩

theorem hashTitle_hex (t : String) (ch : Char) (h : ch ∈ (hashTitle t).data) :
    ch ∈ "0123456789abcdef".data := by
  unfold hashTitle hex.EncodeToString at h
  simp only [List.mem_flatMap, List.mem_cons, List.mem_singleton, List.not_mem_nil,
    or_false] at h
  obtain ⟨b, _, hb | hb⟩ := h
  · rw [hb]; exact digit_mem_hextable _
  · rw [hb]; exact digit_mem_hextable _

/-- Claim C16: `New` on a missing cache file starts from the empty file, and after any
sequence of `Read` and `Clear` calls whose appends all succeed, and after a successful
`cachePost` on top of it, the cache file is the concatenation of lines each made of the
hash of a title followed by one newline; the hash of a title is 40 characters long, each
of them one of `0123456789abcdef`. -/
theorem C16_cache_file_format (tokenize : String → List Token) (items : List Item)
    (cs : List Call) (s : State) (t : String) (hcs : ∀ c ∈ cs, c.succeeds)
    (h : calls tokenize (session "" items) cs = some s) :
    New none true true (some items) = some (session "" items)
    ∧ (∃ titles, s.cacheFile = cacheLines titles)
    ∧ (∃ titles, (cachePost .ok s t).1.cacheFile = cacheLines titles)
    ∧ (hashTitle t).length = 40
    ∧ ∀ ch ∈ (hashTitle t).data, ch ∈ "0123456789abcdef".data := by
  have hs := calls_lines tokenize cs (session "" items) s hcs h
    ⟨[], by rw [session_cacheFile]; rfl⟩
  refine ⟨rfl, hs, ?_, hashTitle_length t, hashTitle_hex t⟩
  obtain ⟨titles, ht⟩ := hs
  exact ⟨titles ++ [t], by rw [cacheLines_concat, ← ht]; rfl⟩

theorem C16_cache_file_format_witness :
    (∀ c ∈ [Call.read 1 .ok], c.succeeds)
    ∧ calls (fun _ => []) (session "" [titled "A", titled "B"]) [Call.read 1 .ok]
      = some (Read (fun _ => []) .ok (session "" [titled "A", titled "B"]) 1).2
    ∧ ∃ titles, (Read (fun _ => []) .ok
        (session "" [titled "A", titled "B"]) 1).2.cacheFile = cacheLines titles :=
  have hcs : ∀ c ∈ [Call.read 1 .ok], c.succeeds := by
    intro c hc
    simp only [List.mem_singleton] at hc
    subst hc
    exact rfl
  ⟨hcs, rfl, (C16_cache_file_format (fun _ => []) [titled "A", titled "B"]
    [Call.read 1 .ok] _ "A" hcs rfl).2.1⟩

/-! ## Browsing and fetching -/

theorem browseLoop_stop (tokenize : String → List Token) (clear : Nat → Option String)
    (all : Bool) (rest : List Item) (idx : Nat) (uc : String) (w : World)
    (huc : ¬ (uc = "y" ∨ uc = "yes" ∨ uc = "")) :
    browseLoop tokenize clear all rest idx uc w = (w, none) := by
  cases rest with
  | nil => rfl
  | cons p ps => rw [browseLoop, if_neg huc]

theorem browseLoop_cons (tokenize : String → List Token) (clear : Nat → Option String)
    (all : Bool) (p : Item) (rest : List Item) (idx : Nat) (uc out : String) (w : World)
    (huc : uc = "y" ∨ uc = "yes" ∨ uc = "") (hout : clear idx = some out) :
    browseLoop tokenize clear all (p :: rest) idx uc w
      = if all || !isRead w.vars p.Title then
          browseLoop tokenize clear all rest (idx + 1)
            (strings.TrimSpace (strings.ToLower (scanln w.answers.head? uc)))
            { vars := (Read tokenize (w.appends.headD .ok) w.vars (idx + 1)).2
              printed := w.printed ++ [Output.screen out]
                ++ [Output.post ((Read tokenize (w.appends.headD .ok) w.vars (idx + 1)).1.1 ++ "\n"),
                    Output.ask (StyleText "\nContinue? [Y/n] " ["bold"])]
              answers := w.answers.tail
              appends := if !isRead w.vars p.Title then w.appends.tail else w.appends }
        else
          browseLoop tokenize clear all rest (idx + 1) (strings.TrimSpace (strings.ToLower uc))
            { w with printed := w.printed ++ [Output.screen out] } := by
  rw [browseLoop, if_pos huc]
  simp only [hout]

theorem browseLoop_clear_fails (tokenize : String → List Token) (clear : Nat → Option String)
    (all : Bool) (p : Item) (rest : List Item) (idx : Nat) (uc : String) (w : World)
    (hout : clear idx = none) :
    (browseLoop tokenize clear all (p :: rest) idx uc w).1 = w := by
  rw [browseLoop]
  split
  · simp only [hout]
  · rfl

theorem browseLoop_invariant (tokenize : String → List Token) (clear : Nat → Option String)
    (all : Bool) (R : State → State → Prop) (hrefl : ∀ s, R s s)
    (htrans : ∀ a b c, R a b → R b c → R a c)
    (hread : ∀ r s i, R s (Read tokenize r s i).2)
    (rest : List Item) (idx : Nat) (uc : String) (w : World) :
    R w.vars (browseLoop tokenize clear all rest idx uc w).1.vars := by
  induction rest generalizing idx uc w with
  | nil => exact hrefl _
  | cons p rest ih =>
    by_cases huc : uc = "y" ∨ uc = "yes" ∨ uc = ""
    · cases hout : clear idx with
      | none => rw [browseLoop_clear_fails _ _ _ _ _ _ _ _ hout]; exact hrefl _
      | some out =>
        rw [browseLoop_cons _ _ _ _ _ _ _ _ _ huc hout]
        split
        · exact htrans _ _ _ (hread (w.appends.headD .ok) w.vars (idx + 1))
            (ih (idx + 1) _ ⟨_, _, _, _⟩)
        · exact ih (idx + 1) _ { w with printed := w.printed ++ [Output.screen out] }
    · rw [browseLoop_stop _ _ _ _ _ _ _ huc]; exact hrefl _

theorem Browse_invariant (tokenize : String → List Token) (clear : Nat → Option String)
    (all : Bool) (R : State → State → Prop) (hrefl : ∀ s, R s s)
    (htrans : ∀ a b c, R a b → R b c → R a c)
    (hread : ∀ r s i, R s (Read tokenize r s i).2) (w : World) :
    R w.vars (Browse tokenize clear all w).1.vars := by
  unfold Browse
  split
  · exact hrefl _
  · exact browseLoop_invariant tokenize clear all R hrefl htrans hread _ _ _ _

theorem Fetch_invariant (tokenize : String → List Token) (clear : Nat → Option String)
    (prompt : Bool) (R : State → State → Prop) (hrefl : ∀ s, R s s)
    (htrans : ∀ a b c, R a b → R b c → R a c)
    (hread : ∀ r s i, R s (Read tokenize r s i).2) (w : World) :
    R w.vars (Fetch tokenize clear prompt w).2.vars := by
  unfold Fetch
  split
  · exact hrefl _
  · cases prompt
    · exact hrefl _
    · simp only [if_true]
      split
      · exact Browse_invariant tokenize clear false R hrefl htrans hread
          (promptBrowse { w with printed := w.printed ++
            [Output.note (StyleText ("* You have " ++ toString w.vars.numUnread
              ++ " unread item(s).\n") ["yellow"])] }).2
      · exact hrefl _

/-- Claim C17: after `Read`, `Clear`, `Browse` and `Fetch` (`Ls` assigns nothing) the
cache file is its prior contents followed by what was appended; a successful `cachePost`
of a title makes it the prior contents followed by the hash of the title and a newline,
whether or not the title is already in the cache; a failed one keeps the prior contents
in front. -/
theorem C17_append_only (tokenize : String → List Token) (clear : Nat → Option String)
    (r : AppendResult) (rs : List AppendResult) (s : State) (i : Int) (all prompt : Bool)
    (w : World) (t : String) :
    (∃ d, (Read tokenize r s i).2.cacheFile = s.cacheFile ++ d)
    ∧ (∃ d, (Clear rs s).1.cacheFile = s.cacheFile ++ d)
    ∧ (∃ d, (Browse tokenize clear all w).1.vars.cacheFile = w.vars.cacheFile ++ d)
    ∧ (∃ d, (Fetch tokenize clear prompt w).2.vars.cacheFile = w.vars.cacheFile ++ d)
    ∧ (cachePost .ok s t).1.cacheFile = s.cacheFile ++ hashTitle t ++ "\n"
    ∧ (∃ d, (cachePost r s t).1.cacheFile = s.cacheFile ++ d) := by
  have hrefl : ∀ s : State, ∃ d, s.cacheFile = s.cacheFile ++ d := fun s => ⟨"", by simp⟩
  have htrans : ∀ a b c : State, (∃ d, b.cacheFile = a.cacheFile ++ d) →
      (∃ d, c.cacheFile = b.cacheFile ++ d) → ∃ d, c.cacheFile = a.cacheFile ++ d := by
    intro a b c ⟨d1, h1⟩ ⟨d2, h2⟩
    exact ⟨d1 ++ d2, by rw [h2, h1, String.append_assoc]⟩
  exact ⟨Read_extends _ _ _ _, clearLoop_extends _ _ _ _,
    Browse_invariant tokenize clear all (fun a b => ∃ d, b.cacheFile = a.cacheFile ++ d)
      hrefl htrans (fun r s i => Read_extends tokenize r s i) w,
    Fetch_invariant tokenize clear prompt (fun a b => ∃ d, b.cacheFile = a.cacheFile ++ d)
      hrefl htrans (fun r s i => Read_extends tokenize r s i) w,
    by simp [cachePost, String.append_assoc], cachePost_extends _ _ _⟩

/-- Claim C15: when `numUnread` is 0, `Fetch` returns 0 and the message
`No news is good news.` with a newline, for both values of `prompt`, and leaves the
session and the terminal as they are: nothing is written, no input is read, nothing is
rendered. -/
theorem C15_fetch_zero (tokenize : String → List Token) (clear : Nat → Option String)
    (prompt : Bool) (w : World) (h : w.vars.numUnread = 0) :
    Fetch tokenize clear prompt w = ((0, "No news is good news.\n"), w) := by
  unfold Fetch
  rw [if_pos h, h]

theorem C15_fetch_zero_witness :
    (World.start (session "" []) [some "y"] []).vars.numUnread = 0
    ∧ Fetch (fun _ => []) (fun _ => some "") true (World.start (session "" []) [some "y"] [])
      = ((0, "No news is good news.\n"), World.start (session "" []) [some "y"] []) :=
  ⟨by decide, C15_fetch_zero (fun _ => []) (fun _ => some "") true
    (World.start (session "" []) [some "y"] []) (by decide)⟩


theorem rendersFrom_nil {α : Type} (items : List α) : rendersFrom items [] = items := by
  cases items <;> rfl

theorem rendersFrom_cons {α : Type} (q : α) (qs : List α) (answers : List (Option String)) :
    rendersFrom (q :: qs) answers
      = q :: (if affirmative (answers.headD none) then rendersFrom qs answers.tail else []) := by
  cases answers with
  | nil => simp [rendersFrom, affirmative, rendersFrom_nil]
  | cons a answers => rfl

theorem choice_normal (uc : String) (huc : uc = "y" ∨ uc = "yes" ∨ uc = "") :
    strings.TrimSpace (strings.ToLower uc) = uc := by
  rcases huc with rfl | rfl | rfl <;> decide

theorem affirmative_some (token : String) :
    affirmative (some token) = true
      ↔ (strings.TrimSpace (strings.ToLower token) = "y"
        ∨ strings.TrimSpace (strings.ToLower token) = "yes"
        ∨ strings.TrimSpace (strings.ToLower token) = "") := by
  simp [affirmative, or_assoc]

/-- The choice held after `fmt.Scanln` and the lower-casing, for a choice that was
affirmative before: it is affirmative exactly when the response is. -/
theorem scanned_choice (answers : List (Option String)) (uc : String)
    (huc : uc = "y" ∨ uc = "yes" ∨ uc = "") :
    (strings.TrimSpace (strings.ToLower (scanln answers.head? uc)) = "y"
      ∨ strings.TrimSpace (strings.ToLower (scanln answers.head? uc)) = "yes"
      ∨ strings.TrimSpace (strings.ToLower (scanln answers.head? uc)) = "")
    ↔ affirmative (answers.headD none) = true := by
  cases answers with
  | nil => simp [scanln, choice_normal uc huc, huc, affirmative]
  | cons a answers =>
    cases a with
    | none => simp [scanln, choice_normal uc huc, huc, affirmative]
    | some token => simp only [List.head?_cons, scanln, List.headD_cons, affirmative_some]

theorem head_of_drop (posts rest : List Item) (p : Item) (idx : Nat)
    (h : posts.drop idx = p :: rest) :
    posts.get? idx = some p ∧ idx < posts.length ∧ posts.drop (idx + 1) = rest := by
  have hlt : idx < posts.length := by
    by_contra hn
    rw [List.drop_eq_nil_of_le (by omega)] at h
    cases h
  rw [List.drop_eq_getElem_cons hlt] at h
  injection h with h1 h2
  exact ⟨by rw [List.get?_eq_getElem?, List.getElem?_eq_getElem hlt, h1], hlt, h2⟩

theorem browseLoop_effect (tokenize : String → List Token) (clear : Nat → Option String)
    (all : Bool) (m : String → Bool) (rest : List Item) (idx : Nat) (uc : String) (w : World)
    (huc : uc = "y" ∨ uc = "yes" ∨ uc = "") (hm : w.vars.cacheMap = m)
    (hposts : w.vars.posts.drop idx = rest) :
    (browseLoop tokenize clear all rest idx uc w).1.printed.filterMap Output.postText
        = w.printed.filterMap Output.postText
          ++ (rendersFrom
              (((rest.enumFrom idx).takeWhile fun ip => (clear ip.1).isSome).filter
                fun ip => all || !m (hashTitle ip.2.Title)) w.answers).map (postLine tokenize)
    ∧ (browseLoop tokenize clear all rest idx uc w).1.vars
        = readEach tokenize w.vars
            (rendersFrom
              (((rest.enumFrom idx).takeWhile fun ip => (clear ip.1).isSome).filter
                fun ip => all || !m (hashTitle ip.2.Title)) w.answers) w.appends
    ∧ (browseLoop tokenize clear all rest idx uc w).1.answers
        = w.answers.drop (rendersFrom
              (((rest.enumFrom idx).takeWhile fun ip => (clear ip.1).isSome).filter
                fun ip => all || !m (hashTitle ip.2.Title)) w.answers).length
    ∧ ((browseLoop tokenize clear all rest idx uc w).2 = none ∨ ∃ i, clear i = none) := by
  induction rest generalizing idx uc w with
  | nil => simp [browseLoop, rendersFrom, readEach]
  | cons p rest ih =>
    obtain ⟨hget, hlt, hdrop⟩ := head_of_drop _ _ _ _ hposts
    cases hout : clear idx with
    | none =>
      have hw := browseLoop_clear_fails tokenize clear all p rest idx uc w hout
      refine ⟨?_, ?_, ?_, Or.inr ⟨idx, hout⟩⟩ <;>
        simp [hw, List.enumFrom_cons, List.takeWhile_cons, hout, rendersFrom, readEach]
    | some out =>
      have hread : isRead w.vars p.Title = m (hashTitle p.Title) := by
        unfold isRead; rw [hm]
      rw [browseLoop_cons _ _ _ _ _ _ _ _ _ huc hout, hread]
      simp only [List.enumFrom_cons, List.takeWhile_cons, hout, Option.isSome_some, if_true,
        List.filter_cons]
      cases hq : (all || !m (hashTitle p.Title))
      · simp only [Bool.false_eq_true, if_false]
        rw [choice_normal uc huc]
        have h := ih (idx + 1) uc { w with printed := w.printed ++ [Output.screen out] } huc hm
          hdrop
        simpa [Output.postText] using h
      · simp only [if_true]
        rw [rendersFrom_cons]
        have hres : (Read tokenize (w.appends.headD .ok) w.vars (idx + 1)).1.1
            = (MakePretty tokenize { text := [], isCode := false } p).1 := by
          have hr := Read_result tokenize (w.appends.headD .ok) w.vars (idx + 1) p (by omega)
            (by omega) (by simpa using hget)
          rw [hr]
          rfl
        have hm' : (Read tokenize (w.appends.headD .ok) w.vars (idx + 1)).2.cacheMap = m := by
          rw [Read_cacheMap]; exact hm
        have hdrop' : (Read tokenize (w.appends.headD .ok) w.vars (idx + 1)).2.posts.drop
            (idx + 1) = rest := by
          rw [Read_posts]; exact hdrop
        by_cases ha : affirmative (w.answers.headD none) = true
        · have h := ih (idx + 1)
            (strings.TrimSpace (strings.ToLower (scanln w.answers.head? uc)))
            { vars := (Read tokenize (w.appends.headD .ok) w.vars (idx + 1)).2
              printed := w.printed ++ [Output.screen out]
                ++ [Output.post ((Read tokenize (w.appends.headD .ok) w.vars (idx + 1)).1.1
                      ++ "\n"),
                    Output.ask (StyleText "\nContinue? [Y/n] " ["bold"])]
              answers := w.answers.tail
              appends := if !m (hashTitle p.Title) then w.appends.tail else w.appends }
            ((scanned_choice w.answers uc huc).mpr ha) hm' hdrop'
          obtain ⟨h1, h2, h3, h4⟩ := h
          rw [if_pos ha]
          refine ⟨?_, ?_, ?_, h4⟩
          · rw [h1, hres]
            simp [Output.postText, postLine]
          · rw [h2]
            simp only [readEach, hread]
          · rw [h3]
            simp
        · rw [browseLoop_stop _ _ _ _ _ _ _
            (fun h => ha ((scanned_choice w.answers uc huc).mp h))]
          rw [if_neg ha]
          refine ⟨?_, ?_, ?_, Or.inl rfl⟩
          · rw [hres]
            simp [Output.postText, postLine]
          · simp only [readEach, hread]
          · simp

theorem specRenders_cons (all : Bool) (cached : String → Bool) (i : Nat) (item : Item)
    (rest : List (Nat × Item)) (answers : List (Option String)) (rs : List AppendResult) :
    specRenders all cached ((i, item) :: rest) answers rs
      = if all || !cached (hashTitle item.Title) then
          (i, item) ::
            (if affirmative (answers.headD none) then
              specRenders all
                (if !cached (hashTitle item.Title) && decide (rs.headD .ok = .ok) then
                  mapSet cached (hashTitle item.Title) true
                else cached)
                rest answers.tail
                (if !cached (hashTitle item.Title) then rs.tail else rs)
            else [])
        else specRenders all cached rest answers rs := by
  rw [specRenders]

/-- With all items browsed, what the specification renders does not depend on the
cache. -/
theorem specRenders_all (cached : String → Bool) (items : List (Nat × Item))
    (answers : List (Option String)) (rs : List AppendResult) :
    specRenders true cached items answers rs = rendersFrom items answers := by
  induction items generalizing cached answers rs with
  | nil => simp [specRenders, rendersFrom]
  | cons ip rest ih =>
    obtain ⟨i, item⟩ := ip
    rw [specRenders_cons, rendersFrom_cons]
    simp only [Bool.true_or, if_true, ih]

/-- When no two unread items share a hash, marking an item read does not change which of
the later items are unread: what the specification renders is what is rendered when the
cache is looked at as it was at the call. -/
theorem specRenders_frozen (m cached : String → Bool) (items : List (Nat × Item))
    (answers : List (Option String)) (rs : List AppendResult)
    (hagree : ∀ ip ∈ items, cached (hashTitle ip.2.Title) = m (hashTitle ip.2.Title))
    (hnodup : ((items.filter fun ip => !m (hashTitle ip.2.Title)).map
      fun ip => hashTitle ip.2.Title).Nodup) :
    specRenders false cached items answers rs
      = rendersFrom (items.filter fun ip => false || !m (hashTitle ip.2.Title)) answers := by
  induction items generalizing cached answers rs with
  | nil => simp [specRenders, rendersFrom]
  | cons ip rest ih =>
    obtain ⟨i, item⟩ := ip
    have hhead : cached (hashTitle item.Title) = m (hashTitle item.Title) :=
      hagree (i, item) (List.mem_cons_self _ _)
    have hrest : ∀ ip ∈ rest, cached (hashTitle ip.2.Title) = m (hashTitle ip.2.Title) :=
      fun ip hip => hagree ip (List.mem_cons_of_mem _ hip)
    rw [specRenders_cons, hhead]
    simp only [Bool.false_or, List.filter_cons]
    cases hq : m (hashTitle item.Title)
    · simp only [Bool.not_false, if_true, Bool.true_and] at hnodup ⊢
      rw [List.filter_cons, hq] at hnodup
      simp only [Bool.not_false, if_true, List.map_cons, List.nodup_cons] at hnodup
      obtain ⟨hnot, hnd⟩ := hnodup
      rw [rendersFrom_cons]
      congr 1
      split
      · apply ih _ _ _ _ hnd
        intro y hy
        split
        · unfold mapSet
          split
          · next heq =>
            exfalso
            apply hnot
            refine List.mem_map.mpr ⟨y, List.mem_filter.mpr ⟨hy, ?_⟩, heq⟩
            rw [heq, hq]
            rfl
          · exact hrest y hy
        · exact hrest y hy
      · rfl
    · simp only [Bool.not_true, Bool.false_eq_true, if_false]
      rw [List.filter_cons, hq] at hnodup
      simp only [Bool.not_true, Bool.false_eq_true, if_false] at hnodup
      exact ih _ _ _ hrest hnodup

theorem reached_nodup (clear : Nat → Option String) (m : String → Bool) (posts : List Item)
    (h : ((posts.filter fun p => !m (hashTitle p.Title)).map
      fun p => hashTitle p.Title).Nodup) :
    (((reached clear posts).filter fun ip => !m (hashTitle ip.2.Title)).map
      fun ip => hashTitle ip.2.Title).Nodup := by
  have hsub : ((reached clear posts).map Prod.snd).Sublist posts := by
    have h1 : (reached clear posts).Sublist posts.enum := List.takeWhile_sublist _
    have h2 := h1.map Prod.snd
    rwa [List.enum_map_snd] at h2
  have h3 := ((hsub.filter fun p => !m (hashTitle p.Title)).map fun p => hashTitle p.Title)
  have h4 := h.sublist h3
  rw [List.filter_map, List.map_map] at h4
  exact h4

/-- Claim C14 as stated fails: when the command `clear` fails in the first pass,
`Browse(true)` on three posts returns the error at once; no post is written, no response
is read and nothing is marked read, although no response was other than affirmative and
the stopping rule renders the posts 1, 2 and 3. -/
theorem C14_clear_fails_counterexample :
    (Browse (fun _ => []) (fun _ => none) true
      (World.start (session "" [titled "A", titled "B", titled "C"]) [] [])).2 ≠ none
    ∧ (Browse (fun _ => []) (fun _ => none) true
        (World.start (session "" [titled "A", titled "B", titled "C"]) [] [])).1.printed = []
    ∧ (Browse (fun _ => []) (fun _ => none) true
        (World.start (session "" [titled "A", titled "B", titled "C"]) [] [])).1.vars.cacheFile
      = ""
    ∧ (Browse (fun _ => []) (fun _ => none) true
        (World.start (session "" [titled "A", titled "B", titled "C"]) [] [])).1.vars.numUnread
      = 3
    ∧ (specRenders true (session "" [titled "A", titled "B", titled "C"]).cacheMap
        (session "" [titled "A", titled "B", titled "C"]).posts.enum [] []).map
          (fun ip => ip.1 + 1)
      = [1, 2, 3] := by
  decide

/-- Claim C14, amended: `Browse` looks at the items in feed order up to the first pass in
which the command `clear` fails (at all of them when it never fails, and then it returns
no error). Of these `Browse(true)` renders the first item, renders a further item only if
the responses to the items rendered before were all affirmative (empty input, or `y` or
`yes` in any letter case), and renders nothing after the first response that is not:
the posts it writes are those the specification renders, it reads one response for each
of them, and its effect on the variables is that of `Read` called for each of them in
turn. `Browse(false)` does the same restricted to the unread items, for a feed in which
no two unread items share a title hash; when `numUnread` is 0 at the call it writes no
post, reads no response and leaves the variables as they are. -/
theorem C14_browse_stopping_rule (tokenize : String → List Token)
    (clear : Nat → Option String) (all : Bool) (w : World)
    (hdistinct : all = true ∨ ((w.vars.posts.filter fun p => !isRead w.vars p.Title).map
      fun p => hashTitle p.Title).Nodup) :
    ((!all && w.vars.numUnread = 0) = false →
      (Browse tokenize clear all w).1.printed.filterMap Output.postText
          = w.printed.filterMap Output.postText
            ++ (specRenders all w.vars.cacheMap (reached clear w.vars.posts) w.answers
                w.appends).map (postLine tokenize)
      ∧ (Browse tokenize clear all w).1.vars
          = readEach tokenize w.vars
              (specRenders all w.vars.cacheMap (reached clear w.vars.posts) w.answers
                w.appends) w.appends
      ∧ (Browse tokenize clear all w).1.answers
          = w.answers.drop (specRenders all w.vars.cacheMap (reached clear w.vars.posts)
              w.answers w.appends).length
      ∧ ((Browse tokenize clear all w).2 = none ∨ ∃ i, clear i = none))
    ∧ ((!all && w.vars.numUnread = 0) = true →
      (Browse tokenize clear all w).1.printed.filterMap Output.postText
          = w.printed.filterMap Output.postText
      ∧ (Browse tokenize clear all w).1.vars = w.vars
      ∧ (Browse tokenize clear all w).1.answers = w.answers
      ∧ (Browse tokenize clear all w).2 = none)
    ∧ ((∀ i, clear i ≠ none) → reached clear w.vars.posts = w.vars.posts.enum)
    ∧ affirmative none = true ∧ affirmative (some "y") = true
    ∧ affirmative (some "YES") = true ∧ affirmative (some "Yes") = true
    ∧ affirmative (some "n") = false ∧ affirmative (some "no") = false := by
  refine ⟨?_, ?_, ?_, by decide, by decide, by decide, by decide, by decide, by decide⟩
  · intro hz
    have hspec : specRenders all w.vars.cacheMap (reached clear w.vars.posts) w.answers
        w.appends
        = rendersFrom (((w.vars.posts.enumFrom 0).takeWhile fun ip => (clear ip.1).isSome).filter
            fun ip => all || !w.vars.cacheMap (hashTitle ip.2.Title)) w.answers := by
      cases all
      · have hnd : ((w.vars.posts.filter fun p => !w.vars.cacheMap (hashTitle p.Title)).map
            fun p => hashTitle p.Title).Nodup := by
          rcases hdistinct with h | h
          · cases h
          · exact h
        exact specRenders_frozen w.vars.cacheMap w.vars.cacheMap _ _ _ (fun _ _ => rfl)
          (reached_nodup clear w.vars.cacheMap w.vars.posts hnd)
      · rw [specRenders_all]
        simp [reached, List.enum]
    have h := browseLoop_effect tokenize clear all w.vars.cacheMap w.vars.posts 0 "" w
      (Or.inr (Or.inr rfl)) rfl rfl
    unfold Browse
    rw [if_neg (by rw [hz]; decide), hspec]
    exact h
  · intro hz
    unfold Browse
    rw [if_pos hz]
    simp [Output.postText]
  · intro hclear
    unfold reached
    rw [List.takeWhile_eq_self_iff]
    intro ip _
    cases h : clear ip.1 with
    | none => exact absurd h (hclear ip.1)
    | some out => rfl

theorem C14_browse_stopping_rule_witness :
    (false = true
      ∨ (((World.start (session (hashTitle "B" ++ "\n") [titled "A", titled "B", titled "C"])
            [some "Y", some "n"] []).vars.posts.filter
          fun p => !isRead (World.start (session (hashTitle "B" ++ "\n")
            [titled "A", titled "B", titled "C"]) [some "Y", some "n"] []).vars p.Title).map
          fun p => hashTitle p.Title).Nodup)
    ∧ (!false && (World.start (session (hashTitle "B" ++ "\n")
        [titled "A", titled "B", titled "C"]) [some "Y", some "n"] []).vars.numUnread = 0)
      = false
    ∧ (Browse (fun _ => []) (fun _ => some "") false
        (World.start (session (hashTitle "B" ++ "\n") [titled "A", titled "B", titled "C"])
          [some "Y", some "n"] [])).1.printed.filterMap Output.postText
      = (World.start (session (hashTitle "B" ++ "\n") [titled "A", titled "B", titled "C"])
          [some "Y", some "n"] []).printed.filterMap Output.postText
        ++ (specRenders false
            (World.start (session (hashTitle "B" ++ "\n")
              [titled "A", titled "B", titled "C"]) [some "Y", some "n"] []).vars.cacheMap
            (reached (fun _ => some "")
              (World.start (session (hashTitle "B" ++ "\n")
                [titled "A", titled "B", titled "C"]) [some "Y", some "n"] []).vars.posts)
            (World.start (session (hashTitle "B" ++ "\n")
              [titled "A", titled "B", titled "C"]) [some "Y", some "n"] []).answers
            (World.start (session (hashTitle "B" ++ "\n")
              [titled "A", titled "B", titled "C"]) [some "Y", some "n"] []).appends).map
          (postLine (fun _ => []))
    ∧ (specRenders false
        (session (hashTitle "B" ++ "\n") [titled "A", titled "B", titled "C"]).cacheMap
        (reached (fun _ => some "")
          (session (hashTitle "B" ++ "\n") [titled "A", titled "B", titled "C"]).posts)
        [some "Y", some "n"] []).map (fun ip => ip.1 + 1)
      = [1, 3] :=
  ⟨Or.inr (by decide), by decide,
    ((C14_browse_stopping_rule (fun _ => []) (fun _ => some "") false
      (World.start (session (hashTitle "B" ++ "\n") [titled "A", titled "B", titled "C"])
        [some "Y", some "n"] []) (Or.inr (by decide))).1 (by decide)).1,
    by decide⟩

end Newsie
